import Mathlib

/-!
Verification of the conversation-tree model of the claudebranching repository.

The development shallowly embeds the client-state logic of
`src/utils/conversationManager.js`, its validation collaborator
`src/utils/validation.js` (file `unnamed/part_006`), the id validator of
`src/utils/idGenerator.js`, and the branch-deletion handler of
`src/components/ChatInterface.jsx`.

Modelling conventions:
* JavaScript `Map` objects become association lists with JS insertion-order
  semantics (`aget` / `aset` / `adel` / `ahas` below).
* Message objects are mutable in JS, and branch message arrays hold object
  references; fork deep-copies message objects.  To keep object identity
  observable, messages live in an explicit heap (`List (Nat × Message)`)
  and branches hold numeric references into it; fresh references come from
  a `nextRef` counter.  All other objects are represented by value: the
  code only ever mutates them through the single map entry that owns them.
* The nested `branches` map stored on each branch maps child id to the
  child branch object, but the code only ever reads its key set
  (`getConversationTree` walks keys and resolves them through the flat
  map, and nothing else reads nested values), so it is embedded as the
  list of child ids.
* Timestamps (`new Date()` / `Date.now()`) are natural numbers supplied by
  the caller; generated ids are supplied by the caller as strings.
* `try`/`catch` with rethrow becomes `Except`; a thrown `ValidationError`
  before any mutation is an `Except.error` carrying the message string.
-/

/-- Validation failure, mirroring the `ValidationError` class of
`src/utils/validation.js`. -/
structure VErr where
  message : String
deriving Repr, DecidableEq

/-! ## Association lists with JS `Map` semantics -/

/-- `Map.get`: first binding of the key, if any. -/
def aget {α β : Type} [DecidableEq α] : List (α × β) → α → Option β
  | [], _ => none
  | (k, v) :: rest, key => if k = key then some v else aget rest key

/-- `Map.set`: update the existing binding in place (keeping its position),
otherwise append a new binding. -/
def aset {α β : Type} [DecidableEq α] : List (α × β) → α → β → List (α × β)
  | [], key, v => [(key, v)]
  | (k, w) :: rest, key, v =>
      if k = key then (key, v) :: rest else (k, w) :: aset rest key v

/-- `Map.delete`: remove the (first) binding of the key. -/
def adel {α β : Type} [DecidableEq α] : List (α × β) → α → List (α × β)
  | [], _ => []
  | (k, w) :: rest, key =>
      if k = key then rest else (k, w) :: adel rest key

/-- `Map.has`. -/
def ahas {α β : Type} [DecidableEq α] (l : List (α × β)) (key : α) : Bool :=
  (aget l key).isSome

theorem aget_aset_self {α β : Type} [DecidableEq α]
    (l : List (α × β)) (k : α) (v : β) : aget (aset l k v) k = some v := by
  induction l with
  | nil => simp [aset, aget]
  | cons p rest ih =>
    obtain ⟨k', w⟩ := p
    by_cases hk : k' = k
    · simp [aset, hk, aget]
    · simp [aset, hk, aget, ih]

theorem aget_aset_ne {α β : Type} [DecidableEq α]
    (l : List (α × β)) (k k' : α) (v : β) (h : k' ≠ k) :
    aget (aset l k v) k' = aget l k' := by
  induction l with
  | nil => simp [aset, aget, h, Ne.symm h]
  | cons p rest ih =>
    obtain ⟨k0, w⟩ := p
    by_cases hk : k0 = k
    · subst hk
      simp [aset, aget, h, Ne.symm h]
    · by_cases hk' : k0 = k'
      · subst hk'
        simp [aset, hk, aget, h]
      · simp [aset, hk, aget, hk', ih]

theorem aget_append {α β : Type} [DecidableEq α]
    (l l' : List (α × β)) (k : α) :
    aget (l ++ l') k = ((aget l k).orElse (fun _ => aget l' k)) := by
  induction l with
  | nil => simp [aget, Option.orElse]
  | cons p rest ih =>
    by_cases hk : p.1 = k
    · simp [aget, hk, Option.orElse]
    · simp [aget, hk, ih]

/-! ## String sanitisation (`sanitizeInput` of `src/utils/validation.js`)

The source chain is
`input.trim().replace(/[<>]/g, "").replace(/javascript:/gi, "")
      .replace(/on\w+=/gi, "")`.
Each `replace` with an empty replacement deletes every non-overlapping
leftmost match.  The two non-trivial patterns are embedded as fuelled
structural recursions (fuel = length of the list, which always suffices)
so that concrete inputs evaluate by kernel reduction. -/

/-- Whitespace recognised by `String.prototype.trim` (ASCII part). -/
def isJsSpace (c : Char) : Bool :=
  c = ' ' || c = '\t' || c = '\n' || c = '\r'

/-- `String.prototype.trim` on character lists. -/
def trimChars (l : List Char) : List Char :=
  ((l.dropWhile isJsSpace).reverse.dropWhile isJsSpace).reverse

/-- `.replace(/[<>]/g, "")`. -/
def removeAngles (l : List Char) : List Char :=
  l.filter (fun c => c ≠ '<' && c ≠ '>')

/-- Case-insensitive character comparison (`i` regex flag, ASCII). -/
def ciEq (c d : Char) : Bool := c.toLower = d.toLower

/-- Does `l` start with the pattern `javascript:` case-insensitively? -/
def isJsProtoPrefix (l : List Char) : Bool :=
  match l with
  | c0 :: c1 :: c2 :: c3 :: c4 :: c5 :: c6 :: c7 :: c8 :: c9 :: c10 :: _ =>
      ciEq c0 'j' && ciEq c1 'a' && ciEq c2 'v' && ciEq c3 'a' &&
      ciEq c4 's' && ciEq c5 'c' && ciEq c6 'r' && ciEq c7 'i' &&
      ciEq c8 'p' && ciEq c9 't' && c10 = ':'
  | _ => false

/-- `.replace(/javascript:/gi, "")`: delete every leftmost match, scanning
left to right (fuelled; the pattern has length 11). -/
def removeJsProtoF : Nat → List Char → List Char
  | 0, l => l
  | _, [] => []
  | fuel + 1, c :: cs =>
      if isJsProtoPrefix (c :: cs) then removeJsProtoF fuel ((c :: cs).drop 11)
      else c :: removeJsProtoF fuel cs

def removeJsProto (l : List Char) : List Char := removeJsProtoF l.length l

/-- JS `\w` character class (ASCII). -/
def isWordChar (c : Char) : Bool :=
  ('a' ≤ c && c ≤ 'z') || ('A' ≤ c && c ≤ 'Z') || ('0' ≤ c && c ≤ '9') || c = '_'

/-- Try to match `/on\w+=/i` at the head of `l`; on success return the
suffix after the match.  Because `=` is not a `\w` character, the greedy
`\w+` never needs to backtrack: the match is `on`, the maximal word-char
run, then `=`. -/
def matchHandlerPrefix (l : List Char) : Option (List Char) :=
  match l with
  | c0 :: c1 :: rest =>
      if ciEq c0 'o' && ciEq c1 'n' then
        let ws := rest.takeWhile isWordChar
        let rest2 := rest.dropWhile isWordChar
        if ws ≠ [] then
          match rest2 with
          | '=' :: tail => some tail
          | _ => none
        else none
      else none
  | _ => none

/-- `.replace(/on\w+=/gi, "")` (fuelled). -/
def removeHandlersF : Nat → List Char → List Char
  | 0, l => l
  | _, [] => []
  | fuel + 1, c :: cs =>
      match matchHandlerPrefix (c :: cs) with
      | some rest => removeHandlersF fuel rest
      | none => c :: removeHandlersF fuel cs

def removeHandlers (l : List Char) : List Char := removeHandlersF l.length l

/-- Character-list form of `sanitizeInput`. -/
def sanitizeChars (l : List Char) : List Char :=
  removeHandlers (removeJsProto (removeAngles (trimChars l)))

/-- `sanitizeInput` of `src/utils/validation.js` (string inputs; the
non-string branch returning `""` is unreachable from the embedded
callers, which only pass strings). -/
def sanitizeInput (s : String) : String := ⟨sanitizeChars s.data⟩

/-- `API_CONFIG.MAX_MESSAGE_LENGTH`. -/
def MAX_MESSAGE_LENGTH : Nat := 4000

/-- `API_CONFIG.MIN_MESSAGE_LENGTH`. -/
def MIN_MESSAGE_LENGTH : Nat := 1

/-- `API_CONFIG.BRANCH_NAME_MAX_LENGTH`. -/
def BRANCH_NAME_MAX_LENGTH : Nat := 50

/-- `validateMessage` of `src/utils/validation.js`.  The `!content`
falsiness test rejects the empty string. -/
def validateMessage (content : String) : Except VErr String :=
  if content = "" then .error ⟨"Message cannot be empty."⟩
  else
    let sanitized := sanitizeInput content
    if sanitized.length < MIN_MESSAGE_LENGTH then
      .error ⟨"Message cannot be empty."⟩
    else if sanitized.length > MAX_MESSAGE_LENGTH then
      .error ⟨"Message must be less than 4000 characters."⟩
    else .ok sanitized

/-- `validateBranchTitle` of `src/utils/validation.js`. -/
def validateBranchTitle (title : String) : Except VErr String :=
  if title = "" then .error ⟨"Branch title is required"⟩
  else
    let sanitized := sanitizeInput title
    if sanitized.length = 0 then .error ⟨"Branch title cannot be empty"⟩
    else if sanitized.length > BRANCH_NAME_MAX_LENGTH then
      .error ⟨"Branch title must be less than 50 characters"⟩
    else .ok sanitized

/-- Pattern `^msg_\d+_[a-z0-9]{9}$` used by `validateId(id, "message")`
in `src/utils/idGenerator.js`. -/
def isLowerAlnum (c : Char) : Bool :=
  ('a' ≤ c && c ≤ 'z') || ('0' ≤ c && c ≤ '9')

def isDigitChar (c : Char) : Bool := '0' ≤ c && c ≤ '9'

def msgIdChars (l : List Char) : Bool :=
  match l with
  | 'm' :: 's' :: 'g' :: '_' :: rest =>
      let digits := rest.takeWhile isDigitChar
      let rest2 := rest.dropWhile isDigitChar
      digits ≠ [] &&
        (match rest2 with
          | '_' :: tail => tail.length = 9 && tail.all isLowerAlnum
          | _ => false)
  | _ => false

/-- `validateId(id, "message")` of `src/utils/idGenerator.js`. -/
def validateMessageIdFormat (id : String) : Bool := msgIdChars id.data

example : sanitizeInput "  hello  " = "hello" := by decide
example : sanitizeInput "a<b>c" = "abc" := by decide
example : sanitizeInput "jjavascript:avascript:" = "javascript:" := by decide
example : sanitizeInput "oonclick=nclick=x" = "onclick=x" := by decide
example : sanitizeInput "a < " = "a " := by decide
example : validateMessageIdFormat "msg_1_abcdefghi" = true := by decide
example : validateMessageIdFormat "msg_1_abcdefgh" = false := by decide
example : validateMessageIdFormat "branch_1_abcdefghi" = false := by decide

/-! ## Data model (`src/utils/conversationManager.js`) -/

/-- A chat message (the object created in `addMessage`).  Messages live in
an explicit heap; branches store references (`Nat`) to them. -/
structure Message where
  id : String
  content : String
  sender : String
  timestamp : Nat
  branchPoint : Bool
  availableBranches : List String
  starred : Bool
deriving Repr, DecidableEq

/-- A branch (the object created in `_createBranch`).  `messages` holds
heap references; `branches` holds the key set of the nested child map
(see the header notes). -/
structure Branch where
  id : String
  title : String
  parentBranchId : Option String
  parentMessageId : Option String
  messages : List Nat
  branches : List String
  createdAt : Nat
  isActive : Bool
deriving Repr, DecidableEq

/-- A condensed-log outline node, as stored by `getCondensedLog`
(shape produced by the `/api/condense` endpoint). -/
structure CondensedItem where
  id : String
  title : String
  sourceMessageId : String
  timestamp : Option Nat
  childTitles : List (String × String)
deriving Repr, DecidableEq

/-- A conversation (the object created in `createConversation`).
`condensedItems = none` models the field being `undefined`;
`condensedErrorMessage = none` models both `undefined` and `null`,
which every read conflates via `|| null`; `condensedParseError` is
read only through `|| false`, so `undefined` is conflated with
`false`. -/
structure Conversation where
  id : String
  title : String
  createdAt : Nat
  branches : List (String × Branch)
  currentBranch : String
  breadcrumbs : List String
  condensedItems : Option (List CondensedItem)
  lastSummarizedMessageId : Option String
  condensedLastUpdated : Option Nat
  condensedParseError : Bool
  condensedErrorMessage : Option String
deriving Repr, DecidableEq

/-- The `ConversationManager` instance state, plus the message heap and
its allocation counter (see the header notes on object identity). -/
structure MState where
  conversations : List (String × Conversation)
  currentConversationId : Option String
  currentBranch : Option String
  heap : List (Nat × Message)
  nextRef : Nat
deriving Repr, DecidableEq

/-- The state built by the `ConversationManager` constructor. -/
def initialState : MState :=
  { conversations := []
    currentConversationId := none
    currentBranch := none
    heap := []
    nextRef := 0 }

/-- Heap lookup. -/
def hget (h : List (Nat × Message)) (r : Nat) : Option Message := aget h r

/-- `getCurrentConversation`. -/
def getCurrentConversation (s : MState) : Option Conversation :=
  match s.currentConversationId with
  | none => none
  | some cid => aget s.conversations cid

/-- Write the (mutated-in-place) current conversation object back into
the conversations map; in JS this is implicit aliasing through
`this.conversations.get(this.currentConversationId)`. -/
def writeCurrentConversation (s : MState) (c : Conversation) : MState :=
  match s.currentConversationId with
  | none => s
  | some cid => { s with conversations := aset s.conversations cid c }

/-- `getCurrentBranch`. -/
def getCurrentBranch (s : MState) : Option Branch :=
  match getCurrentConversation s with
  | none => none
  | some conv =>
      match s.currentBranch with
      | none => none
      | some b => aget conv.branches b

/-! ## Branch construction, conversations, messages -/

/-- `_createBranch(id, title, parentBranchId, parentMessageId)`.  Its
`catch` wraps any validation failure into
`ValidationError("Failed to create branch")`. -/
def createBranchRecord (id title : String) (parentBranchId parentMessageId :
    Option String) (now : Nat) : Except VErr Branch :=
  match validateBranchTitle title with
  | .error _ => .error ⟨"Failed to create branch"⟩
  | .ok sanitizedTitle =>
      .ok { id
            title := sanitizedTitle
            parentBranchId
            parentMessageId
            messages := []
            branches := []
            createdAt := now
            isActive := true }

/-- `createConversation(title)`.  `id` and `now` stand for
`generateConversationId()` and `new Date()`.  The `catch` wraps any
failure into `ValidationError("Failed to create conversation")`. -/
def createConversation (s : MState) (title id : String) (now : Nat) :
    Except VErr (Conversation × MState) :=
  match validateBranchTitle title with
  | .error _ => .error ⟨"Failed to create conversation"⟩
  | .ok sanitizedTitle =>
      match createBranchRecord "main" "Main Channel" none none now with
      | .error _ => .error ⟨"Failed to create conversation"⟩
      | .ok mainBranch =>
          let conversation : Conversation :=
            { id
              title := sanitizedTitle
              createdAt := now
              branches := aset [] "main" mainBranch
              currentBranch := "main"
              breadcrumbs := ["Main Channel"]
              condensedItems := some []
              lastSummarizedMessageId := none
              condensedLastUpdated := none
              condensedParseError := false
              condensedErrorMessage := none }
          .ok (conversation,
            { s with
              conversations := aset s.conversations id conversation
              currentConversationId := some id
              currentBranch := some "main" })

/-- `addMessage(content, sender, branchId)`.  `msgId` and `now` stand for
`generateMessageId()` and `new Date()`.  All validation happens before
the push, so an error leaves the state untouched (hence no state in the
error case). -/
def addMessage (s : MState) (content sender : String)
    (branchId : Option String) (msgId : String) (now : Nat) :
    Except VErr (Message × MState) :=
  match validateMessage content with
  | .error e => .error e
  | .ok sanitizedContent =>
      if sender ≠ "user" ∧ sender ≠ "assistant" then
        .error ⟨"Invalid sender type"⟩
      else
        match getCurrentConversation s with
        | none => .error ⟨"No active conversation"⟩
        | some conversation =>
            let targetBranch : Option String :=
              match branchId with
              | some b => some b
              | none => s.currentBranch
            match targetBranch with
            | none => .error ⟨"Branch not found"⟩
            | some tb =>
                match aget conversation.branches tb with
                | none => .error ⟨"Branch not found"⟩
                | some branch =>
                    let message : Message :=
                      { id := msgId
                        content := sanitizedContent
                        sender
                        timestamp := now
                        branchPoint := sender = "assistant"
                        availableBranches := []
                        starred := false }
                    let branch' :=
                      { branch with messages := branch.messages ++ [s.nextRef] }
                    let conversation' :=
                      { conversation with
                        branches := aset conversation.branches tb branch' }
                    let s' := writeCurrentConversation
                      { s with
                        heap := s.heap ++ [(s.nextRef, message)]
                        nextRef := s.nextRef + 1 }
                      conversation'
                    .ok (message, s')

/-! ## Fork, switch, breadcrumbs, close, delete -/

/-- The deep copy of `fork`:
`.map(msg => ({ ...msg, availableBranches: [...msg.availableBranches] }))`
allocates a fresh object per copied message with an identical payload.
Returns the new references, the extended heap and the next counter.
(References are always valid in reachable states; a dangling reference is
skipped, matching no possible JS behaviour, and never arises.) -/
def copyMessages : List Nat → List (Nat × Message) → Nat →
    List Nat × List (Nat × Message) × Nat
  | [], h, n => ([], h, n)
  | r :: rs, h, n =>
      match hget h r with
      | none => copyMessages rs h n
      | some m =>
          let rec_result := copyMessages rs (h ++ [(n, m)]) (n + 1)
          (n :: rec_result.1, rec_result.2.1, rec_result.2.2)

/-- Breadcrumb loop of `generateBreadcrumbs`: repeatedly prepend the
parent title, stopping at a branch with no parent or a missing parent.
The JS `while` loop has no fuel; the flat-map size bounds every acyclic
parent chain, so `generateBreadcrumbs` below runs the loop with that
fuel, and theorem `generateBreadcrumbs_chain` shows the result is
fuel-independent from the chain length on. -/
def breadcrumbLoop : Nat → Conversation → Branch → List String → List String
  | 0, _, _, acc => acc
  | fuel + 1, conv, current, acc =>
      match current.parentBranchId with
      | none => acc
      | some pid =>
          match aget conv.branches pid with
          | none => acc
          | some parent =>
              breadcrumbLoop fuel conv parent (parent.title :: acc)

/-- `generateBreadcrumbs(branchId)` restricted to a conversation value. -/
def conversationBreadcrumbs (conv : Conversation) (branchId : String) :
    List String :=
  match aget conv.branches branchId with
  | none => []
  | some branch => breadcrumbLoop conv.branches.length conv branch [branch.title]

/-- `generateBreadcrumbs(branchId)`. -/
def generateBreadcrumbs (s : MState) (branchId : String) : List String :=
  match getCurrentConversation s with
  | none => []
  | some conv => conversationBreadcrumbs conv branchId

/-- `switchToBranch(branchId)`. -/
def switchToBranch (s : MState) (branchId : String) : Bool × MState :=
  match getCurrentConversation s with
  | none => (false, s)
  | some conversation =>
      if ¬ ahas conversation.branches branchId then (false, s)
      else
        let conversation1 := { conversation with currentBranch := branchId }
        let s1 := { writeCurrentConversation s conversation1 with
                      currentBranch := some branchId }
        let conversation2 := { conversation1 with
                                 breadcrumbs := generateBreadcrumbs s1 branchId }
        (true, writeCurrentConversation s1 conversation2)

/-- `createBranchFromMessage(messageId, branchTitle)`.  `newBranchId` and
`now` stand for `generateBranchId()` and `new Date()`.  Note the source
calls `_createBranch` with the already-sanitised title, which is
re-sanitised there (sanitisation is not idempotent, so this second pass
can still fail). -/
def createBranchFromMessage (s : MState) (messageId branchTitle : String)
    (newBranchId : String) (now : Nat) : Except VErr (Branch × MState) :=
  if ¬ validateMessageIdFormat messageId then
    .error ⟨"Invalid message ID format"⟩
  else
    match validateBranchTitle branchTitle with
    | .error e => .error e
    | .ok sanitizedTitle =>
        match getCurrentConversation s with
        | none => .error ⟨"No active conversation"⟩
        | some conversation =>
            let currentBranch? : Option Branch :=
              match s.currentBranch with
              | none => none
              | some cb => aget conversation.branches cb
            match s.currentBranch, currentBranch? with
            | _, none => .error ⟨"Current branch not found"⟩
            | none, some _ => .error ⟨"Current branch not found"⟩
            | some cb, some currentBranch =>
                match createBranchRecord newBranchId sanitizedTitle
                    (some cb) (some messageId) now with
                | .error e => .error e
                | .ok newBranch =>
                    match currentBranch.messages.findIdx?
                        (fun r => (hget s.heap r).map (·.id) = some messageId) with
                    | none => .error ⟨"Message not found in current branch"⟩
                    | some messageIndex =>
                        let res := copyMessages
                          (currentBranch.messages.take (messageIndex + 1))
                          s.heap s.nextRef
                        let newBranch' := { newBranch with messages := res.1 }
                        let currentBranch' :=
                          { currentBranch with
                              branches :=
                                if newBranchId ∈ currentBranch.branches then
                                  currentBranch.branches
                                else currentBranch.branches ++ [newBranchId] }
                        let conversation' :=
                          { conversation with
                              branches :=
                                aset (aset conversation.branches cb currentBranch')
                                  newBranchId newBranch' }
                        let s1 := writeCurrentConversation
                          { s with heap := res.2.1, nextRef := res.2.2 }
                          conversation'
                        let s2 := (switchToBranch s1 newBranchId).2
                        .ok (newBranch', s2)

/-- `closeBranch(branchId)`. -/
def closeBranch (s : MState) (branchId : String) : Bool × MState :=
  match getCurrentConversation s with
  | none => (false, s)
  | some conversation =>
      if branchId = "main" then (false, s)
      else
        match aget conversation.branches branchId with
        | none => (false, s)
        | some branch =>
            let branch' := { branch with isActive := false }
            let conversation' :=
              { conversation with
                  branches := aset conversation.branches branchId branch' }
            let s1 := writeCurrentConversation s conversation'
            let fallback :=
              match branch.parentBranchId with
              | none => "main"
              | some p => if p = "" then "main" else p
            let s2 :=
              if s.currentBranch = some branchId then
                (switchToBranch s1 fallback).2
              else s1
            (true, s2)

/-- `deleteConversation(conversationId)`. -/
def deleteConversation (s : MState) (conversationId : String) :
    Bool × MState :=
  if ¬ ahas s.conversations conversationId then (false, s)
  else
    let s1 := { s with conversations := adel s.conversations conversationId }
    if s1.currentConversationId = some conversationId then
      (true, { s1 with currentConversationId := none,
                       currentBranch := some "main" })
    else (true, s1)

/-- `handleDeleteBranch(branchId)` of
`src/components/ChatInterface.jsx` (with the confirm dialog accepted).
It deletes the branch from the conversation's flat map only, and when the
deleted branch was focused it resets only the manager-level cursor. -/
def handleDeleteBranch (s : MState) (branchId : String) : MState :=
  match getCurrentConversation s with
  | none => s
  | some conversation =>
      if branchId = "main" then s
      else
        let conversation' :=
          { conversation with branches := adel conversation.branches branchId }
        let s1 := writeCurrentConversation s conversation'
        if s1.currentBranch = some branchId then
          { s1 with currentBranch := some "main" }
        else s1

/-- `toggleMessageStar(messageId, branchId)`. -/
def toggleMessageStar (s : MState) (messageId : String)
    (branchId : Option String) : Except VErr (Bool × MState) :=
  if ¬ validateMessageIdFormat messageId then
    .error ⟨"Invalid message ID format"⟩
  else
    match getCurrentConversation s with
    | none => .error ⟨"No active conversation"⟩
    | some conversation =>
        let targetBranch : Option String :=
          match branchId with
          | some b => some b
          | none => s.currentBranch
        match targetBranch with
        | none => .error ⟨"Branch not found"⟩
        | some tb =>
            match aget conversation.branches tb with
            | none => .error ⟨"Branch not found"⟩
            | some branch =>
                match branch.messages.find?
                    (fun r => (hget s.heap r).map (·.id) = some messageId) with
                | none => .error ⟨"Message not found"⟩
                | some r =>
                    match hget s.heap r with
                    | none => .error ⟨"Message not found"⟩
                    | some m =>
                        let m' := { m with starred := ! m.starred }
                        .ok (m'.starred, { s with heap := aset s.heap r m' })

/-! ## Condensation (`getMessagesForCondensing`, `getCondensedLog`) -/

/-- The `{ ...message, branchId, branchTitle }` object built by
`getMessagesForCondensing`. -/
structure CondMsg where
  msg : Message
  branchId : String
  branchTitle : String
deriving Repr, DecidableEq

/-- Stable insertion into a list sorted by ascending timestamp; an
element is inserted before the first element of greater-or-equal
timestamp, so earlier input elements stay first among ties. -/
def insertByTimestamp (m : CondMsg) : List CondMsg → List CondMsg
  | [] => [m]
  | y :: ys =>
      if m.msg.timestamp ≤ y.msg.timestamp then m :: y :: ys
      else y :: insertByTimestamp m ys

/-- `Array.prototype.sort` with comparator
`(a, b) => new Date(a.timestamp) - new Date(b.timestamp)`: a stable sort
by ascending timestamp (JS sort is stable; a stable ascending sort has a
unique result, realised here as insertion sort). -/
def sortByTimestamp : List CondMsg → List CondMsg
  | [] => []
  | m :: ms => insertByTimestamp m (sortByTimestamp ms)

/-- `getMessagesForCondensing()`: all messages of all branches of the
current conversation, annotated with branch id and title, in flat-map
iteration order, then stably sorted by timestamp. -/
def getMessagesForCondensing (s : MState) : List CondMsg :=
  match getCurrentConversation s with
  | none => []
  | some conversation =>
      let allMessages := conversation.branches.flatMap
        (fun p => p.2.messages.filterMap
          (fun r => (hget s.heap r).map
            (fun m => { msg := m, branchId := p.1, branchTitle := p.2.title })))
      sortByTimestamp allMessages

/-- `_hasNewMessagesSinceLastSummary(messages, lastSummarizedMessageId)`. -/
def hasNewMessagesSinceLastSummary (messages : List CondMsg)
    (lastSummarizedMessageId : Option String) : Bool :=
  match lastSummarizedMessageId with
  | none => true
  | some lid =>
      if lid = "" ∨ messages = [] then true
      else
        match messages.findIdx? (fun m => m.msg.id = lid) with
        | none => true
        | some i => i < messages.length - 1

/-- The JSON body answered by the `/api/condense` endpoint, as read by
`_generateCondensedLogFromAPI` (`data.success`, `data.condensed`,
`data.parseError`, `data.errorMessage`; absent fields are `none`). -/
structure ServerResp where
  success : Bool
  condensed : Option (List CondensedItem)
  parseError : Option Bool
  errorMessage : Option String
deriving Repr, DecidableEq

/-- The `{ items, parseError, errorMessage }` record produced by
`_generateCondensedLogFromAPI` and cached on the conversation. -/
structure CondenseResult where
  items : List CondensedItem
  parseError : Bool
  errorMessage : Option String
deriving Repr, DecidableEq

/-- The summarization capability: `none` models a network failure of the
`fetch` itself. -/
def CondenseOracle : Type := List CondMsg → Option ServerResp

/-- `_generateCondensedLogFromAPI(messages)`: on `success`, read the
fields with their `||` defaults; a failed fetch or `success: false`
lands in the `catch` fallback. -/
def generateCondensedLogFromAPI (oracle : CondenseOracle)
    (messages : List CondMsg) : CondenseResult :=
  match oracle messages with
  | some data =>
      if data.success then
        { items := data.condensed.getD []
          parseError := data.parseError.getD false
          errorMessage := data.errorMessage }
      else
        { items := []
          parseError := true
          errorMessage := some "Network error: Unable to connect to server" }
  | none =>
      { items := []
        parseError := true
        errorMessage := some "Network error: Unable to connect to server" }

/-- `getCondensedLog(forceRefresh)`.  Returns the result (`none` models
the bare `[]` early returns for a missing conversation or an empty
message set), the new state, and whether the summarization capability
was invoked.  `now` stands for `new Date().toISOString()`. -/
def getCondensedLog (s : MState) (forceRefresh : Bool)
    (oracle : CondenseOracle) (now : Nat) :
    Option CondenseResult × MState × Bool :=
  match getCurrentConversation s with
  | none => (none, s, false)
  | some conversation =>
      let messages := getMessagesForCondensing s
      if messages = [] then (none, s, false)
      else
        let needsRegeneration := forceRefresh ||
          conversation.condensedItems.getD [] = [] ||
          hasNewMessagesSinceLastSummary messages
            conversation.lastSummarizedMessageId
        if ¬ needsRegeneration then
          (some { items := conversation.condensedItems.getD []
                  parseError := conversation.condensedParseError
                  errorMessage := conversation.condensedErrorMessage },
           s, false)
        else
          let result := generateCondensedLogFromAPI oracle messages
          let conversation' :=
            { conversation with
                condensedItems := some result.items
                condensedParseError := result.parseError
                condensedErrorMessage := result.errorMessage
                lastSummarizedMessageId :=
                  (messages.getLast?).map (·.msg.id)
                condensedLastUpdated := some now }
          (some result, writeCurrentConversation s conversation', true)

/-! ## Persistence (`loadFromStorage`)

The stored payload is the JSON written by `_saveToStorage`, reconstituted
by the reviver (`conversations` and every `branches` field become maps
again).  `Option` fields model JSON fields that may be absent
(`undefined` after parsing). -/

/-- A message as found in a stored payload; `starred` may be absent in
pre-starring payloads. -/
structure StoredMessage where
  id : String
  content : String
  sender : String
  timestamp : Nat
  branchPoint : Bool
  availableBranches : List String
  starred : Option Bool
deriving Repr, DecidableEq

structure StoredBranch where
  id : String
  title : String
  parentBranchId : Option String
  parentMessageId : Option String
  messages : List StoredMessage
  branches : List String
  createdAt : Nat
  isActive : Bool
deriving Repr, DecidableEq

/-- A conversation as found in a stored payload; the condensation fields
may be absent in old payloads. -/
structure StoredConversation where
  id : String
  title : String
  createdAt : Nat
  branches : List (String × StoredBranch)
  currentBranch : String
  breadcrumbs : List String
  condensedItems : Option (List CondensedItem)
  lastSummarizedMessageId : Option String
  condensedLastUpdated : Option Nat
  condensedParseError : Bool
  condensedErrorMessage : Option String
deriving Repr, DecidableEq

/-- The whole persisted payload (`version` and `timestamp` are never
read back, so they are omitted). -/
structure StoredData where
  conversations : Option (List (String × StoredConversation))
  currentConversationId : Option String
  currentBranch : Option String
deriving Repr, DecidableEq

/-- Materialise one stored message, applying the backward-compatibility
defaulting `if (message.starred === undefined) message.starred = false`
(the loop runs before any code can observe the field, so defaulting at
materialisation is observationally identical). -/
def storedToMessage (sm : StoredMessage) : Message :=
  { id := sm.id
    content := sm.content
    sender := sm.sender
    timestamp := sm.timestamp
    branchPoint := sm.branchPoint
    availableBranches := sm.availableBranches
    starred := sm.starred.getD false }

/-- Allocate heap cells for a list of stored messages. -/
def loadMessages : List StoredMessage → List (Nat × Message) → Nat →
    List Nat × List (Nat × Message) × Nat
  | [], h, n => ([], h, n)
  | sm :: rest, h, n =>
      let res := loadMessages rest (h ++ [(n, storedToMessage sm)]) (n + 1)
      (n :: res.1, res.2.1, res.2.2)

def loadBranch (sb : StoredBranch) (h : List (Nat × Message)) (n : Nat) :
    Branch × List (Nat × Message) × Nat :=
  let res := loadMessages sb.messages h n
  ({ id := sb.id
     title := sb.title
     parentBranchId := sb.parentBranchId
     parentMessageId := sb.parentMessageId
     messages := res.1
     branches := sb.branches
     createdAt := sb.createdAt
     isActive := sb.isActive }, res.2.1, res.2.2)

def loadBranches : List (String × StoredBranch) → List (Nat × Message) →
    Nat → List (String × Branch) × List (Nat × Message) × Nat
  | [], h, n => ([], h, n)
  | (key, sb) :: rest, h, n =>
      let hd := loadBranch sb h n
      let tl := loadBranches rest hd.2.1 hd.2.2
      ((key, hd.1) :: tl.1, tl.2.1, tl.2.2)

/-- Materialise one stored conversation, applying the condensation
backward-compatibility defaulting (`condensedItems === undefined` resets
the three condensation fields; `condensedParseError` and
`condensedErrorMessage` are only ever read through `|| false` and
`|| null`, hence their defaults). -/
def loadConversation (sc : StoredConversation) (h : List (Nat × Message))
    (n : Nat) : Conversation × List (Nat × Message) × Nat :=
  let res := loadBranches sc.branches h n
  ({ id := sc.id
     title := sc.title
     createdAt := sc.createdAt
     branches := res.1
     currentBranch := sc.currentBranch
     breadcrumbs := sc.breadcrumbs
     condensedItems :=
       match sc.condensedItems with
       | none => some []
       | some items => some items
     lastSummarizedMessageId :=
       match sc.condensedItems with
       | none => none
       | some _ => sc.lastSummarizedMessageId
     condensedLastUpdated :=
       match sc.condensedItems with
       | none => none
       | some _ => sc.condensedLastUpdated
     condensedParseError := sc.condensedParseError
     condensedErrorMessage := sc.condensedErrorMessage }, res.2.1, res.2.2)

def loadConversations : List (String × StoredConversation) →
    List (Nat × Message) → Nat →
    List (String × Conversation) × List (Nat × Message) × Nat
  | [], h, n => ([], h, n)
  | (key, sc) :: rest, h, n =>
      let hd := loadConversation sc h n
      let tl := loadConversations rest hd.2.1 hd.2.2
      ((key, hd.1) :: tl.1, tl.2.1, tl.2.2)

/-- A JS-falsy optional string (`undefined`, `null` or `""`). -/
def falsyStr : Option String → Bool
  | none => true
  | some s => s = ""

/-- `loadFromStorage()`.  `stored = none` models an absent storage key.
The structural validation (`!parsed.conversations ||
!parsed.currentConversationId`) throws before `this` is touched, but the
final current-conversation check throws only after `this.conversations`,
`this.currentConversationId` and `this.currentBranch` have been
reassigned and the defaulting loop has run; `safeAsync` then converts
the throw into a `false` return, leaving the overwritten state in
place. -/
def loadFromStorage (s : MState) (stored : Option StoredData) :
    Bool × MState :=
  match stored with
  | none => (false, s)
  | some parsed =>
      match parsed.conversations with
      | none => (false, s)
      | some storedConversations =>
          if falsyStr parsed.currentConversationId then (false, s)
          else
            let loaded := loadConversations storedConversations s.heap s.nextRef
            let s1 : MState :=
              { conversations := loaded.1
                currentConversationId := parsed.currentConversationId
                currentBranch :=
                  some (if falsyStr parsed.currentBranch then "main"
                        else parsed.currentBranch.getD "main")
                heap := loaded.2.1
                nextRef := loaded.2.2 }
            match getCurrentConversation s1 with
            | none => (false, s1)
            | some _ => (true, s1)

/-! ## Operation sequences

The in-memory operation surface of the manager (UI-addressable calls
that mutate state).  A thrown `ValidationError` is caught by the caller
and leaves the state unchanged.  `loadFromStorage` is not part of this
surface: it replaces the state wholesale with a previously saved
payload. -/

inductive Op where
  | createConversation (title id : String) (now : Nat)
  | addMessage (content sender : String) (branchId : Option String)
      (msgId : String) (now : Nat)
  | createBranchFromMessage (messageId branchTitle newBranchId : String)
      (now : Nat)
  | switchToBranch (branchId : String)
  | closeBranch (branchId : String)
  | deleteConversation (conversationId : String)
  | handleDeleteBranch (branchId : String)
  | toggleMessageStar (messageId : String) (branchId : Option String)
  | condense (forceRefresh : Bool) (resp : Option ServerResp) (now : Nat)

def applyOp (s : MState) : Op → MState
  | .createConversation title id now =>
      match createConversation s title id now with
      | .error _ => s
      | .ok r => r.2
  | .addMessage content sender branchId msgId now =>
      match addMessage s content sender branchId msgId now with
      | .error _ => s
      | .ok r => r.2
  | .createBranchFromMessage messageId branchTitle newBranchId now =>
      match createBranchFromMessage s messageId branchTitle newBranchId now with
      | .error _ => s
      | .ok r => r.2
  | .switchToBranch branchId => (switchToBranch s branchId).2
  | .closeBranch branchId => (closeBranch s branchId).2
  | .deleteConversation conversationId =>
      (deleteConversation s conversationId).2
  | .handleDeleteBranch branchId => handleDeleteBranch s branchId
  | .toggleMessageStar messageId branchId =>
      match toggleMessageStar s messageId branchId with
      | .error _ => s
      | .ok r => r.2
  | .condense forceRefresh resp now =>
      (getCondensedLog s forceRefresh (fun _ => resp) now).2.1

def runOps (ops : List Op) (s : MState) : MState :=
  ops.foldl applyOp s

/-! ## Concrete scenario states (used by witnesses and counterexamples) -/

/-- A conversation with user message `msg_1_aaaaaaaaa` (timestamp 1) and
assistant message `msg_2_aaaaaaaaa` (timestamp 2) on `main`. -/
def scenarioBase : MState :=
  runOps
    [ .createConversation "C" "conv_1_aaaaaaaaa" 0,
      .addMessage "Hi" "user" none "msg_1_aaaaaaaaa" 1,
      .addMessage "Hello there" "assistant" none "msg_2_aaaaaaaaa" 2 ]
    initialState

/-- `scenarioBase` plus branch `branch_1_aaaaaaaaa` ("Tangent") forked
from the assistant message; the fork is the focused branch. -/
def scenarioForked : MState :=
  applyOp scenarioBase
    (.createBranchFromMessage "msg_2_aaaaaaaaa" "Tangent" "branch_1_aaaaaaaaa" 3)

example : (getCurrentConversation scenarioBase).isSome = true := by decide
example :
    (getCurrentConversation scenarioForked).map
      (fun c => ahas c.branches "branch_1_aaaaaaaaa") = some true := by decide
example : scenarioForked.currentBranch = some "branch_1_aaaaaaaaa" := by
  decide

/-! ## Support lemmas -/

theorem aget_mem {α β : Type} [DecidableEq α]
    {l : List (α × β)} {k : α} {v : β} (h : aget l k = some v) :
    (k, v) ∈ l := by
  induction l with
  | nil => simp [aget] at h
  | cons p rest ih =>
    obtain ⟨k0, w⟩ := p
    by_cases hk : k0 = k
    · subst hk
      rw [aget] at h
      simp only [if_true] at h
      cases Option.some.inj h
      exact List.mem_cons_self _ _
    · rw [aget] at h
      simp only [hk, if_false] at h
      exact List.mem_cons_of_mem _ (ih h)

theorem mem_aset {α β : Type} [DecidableEq α]
    {l : List (α × β)} {k : α} {v : β} {p : α × β}
    (h : p ∈ aset l k v) : p = (k, v) ∨ p ∈ l := by
  induction l with
  | nil => simpa [aset] using h
  | cons q rest ih =>
    obtain ⟨k0, w⟩ := q
    by_cases hk : k0 = k
    · simp only [aset, hk, if_true] at h
      rcases List.mem_cons.mp h with h1 | h1
      · exact Or.inl h1
      · exact Or.inr (List.mem_cons_of_mem _ h1)
    · simp only [aset, hk, if_false] at h
      rcases List.mem_cons.mp h with h1 | h1
      · exact Or.inr (by simp [h1])
      · rcases ih h1 with h2 | h2
        · exact Or.inl h2
        · exact Or.inr (List.mem_cons_of_mem _ h2)

theorem mem_adel {α β : Type} [DecidableEq α]
    {l : List (α × β)} {k : α} {p : α × β}
    (h : p ∈ adel l k) : p ∈ l := by
  induction l with
  | nil => simp [adel] at h
  | cons q rest ih =>
    obtain ⟨k0, w⟩ := q
    by_cases hk : k0 = k
    · simp only [adel, hk, if_true] at h
      exact List.mem_cons_of_mem _ h
    · simp only [adel, hk, if_false] at h
      rcases List.mem_cons.mp h with h1 | h1
      · simp [h1]
      · exact List.mem_cons_of_mem _ (ih h1)

theorem getCurrentConversation_write {s : MState}
    (c' : Conversation) (h : (getCurrentConversation s).isSome) :
    getCurrentConversation (writeCurrentConversation s c') = some c' := by
  unfold getCurrentConversation writeCurrentConversation at *
  cases hcid : s.currentConversationId with
  | none => rw [hcid] at h; simp at h
  | some cid => simp [hcid, aget_aset_self]

theorem writeCurrentConversation_heap (s : MState) (c : Conversation) :
    (writeCurrentConversation s c).heap = s.heap := by
  unfold writeCurrentConversation
  cases hcid : s.currentConversationId <;> simp [hcid]

theorem writeCurrentConversation_currentBranch (s : MState)
    (c : Conversation) :
    (writeCurrentConversation s c).currentBranch = s.currentBranch := by
  unfold writeCurrentConversation
  cases hcid : s.currentConversationId <;> simp [hcid]

theorem writeCurrentConversation_currentConversationId (s : MState)
    (c : Conversation) :
    (writeCurrentConversation s c).currentConversationId =
      s.currentConversationId := by
  unfold writeCurrentConversation
  cases hcid : s.currentConversationId <;> simp [hcid]

/-! ## Claim C1 -/

/-- C1: the claim states that deleting a non-main branch removes it both
from the conversation's flat map and from its parent's nested map.  The
code (`handleDeleteBranch` in `src/components/ChatInterface.jsx`)
removes it only from the flat map: after deleting the focused fork
`branch_1_aaaaaaaaa`, the flat map no longer has it, but the nested
`branches` map of its parent `main` still contains its id, so the tree
invariant is broken.  This contradicts the spec's explicit requirement,
so it is a code bug, witnessed here by evaluating the code on the
failing input. -/
theorem handleDeleteBranch_leaves_nested_child :
    (getCurrentConversation
        (handleDeleteBranch scenarioForked "branch_1_aaaaaaaaa")).map
      (fun c => ahas c.branches "branch_1_aaaaaaaaa") = some false ∧
    ((getCurrentConversation
        (handleDeleteBranch scenarioForked "branch_1_aaaaaaaaa")).bind
      (fun c => aget c.branches "main")).map
        (fun b => b.branches.contains "branch_1_aaaaaaaaa") = some true := by
  constructor <;> decide

/-! ## Claim C3 -/

/-- C3: the claim states that after every operation the registry-level
`currentBranch` equals the focused conversation's own `currentBranch`.
`handleDeleteBranch` violates it: deleting the focused fork sets the
registry cursor to `"main"` but leaves the conversation's own
`currentBranch` pointing at the deleted branch (only
`conversationManager.currentBranch` is reassigned).  Every
`ConversationManager` operation maintains the mirror, so this is a slip
in the deletion handler, evaluated here on the failing input. -/
theorem handleDeleteBranch_breaks_cursor_mirror :
    (handleDeleteBranch scenarioForked "branch_1_aaaaaaaaa").currentBranch =
      some "main" ∧
    (getCurrentConversation
        (handleDeleteBranch scenarioForked "branch_1_aaaaaaaaa")).map
      (·.currentBranch) = some "branch_1_aaaaaaaaa" := by
  constructor <;> decide

/-! ## Claim C8 -/

/-- Computation of `switchToBranch` when the branch exists. -/
theorem switchToBranch_eq_of_found (s : MState) (c : Conversation)
    (branchId : String) (hc : getCurrentConversation s = some c)
    (hyes : ahas c.branches branchId = true) :
    switchToBranch s branchId =
      (true,
        writeCurrentConversation
          { writeCurrentConversation s { c with currentBranch := branchId }
              with currentBranch := some branchId }
          { c with
              currentBranch := branchId
              breadcrumbs := generateBreadcrumbs
               { writeCurrentConversation s { c with currentBranch := branchId }
                  with currentBranch := some branchId } branchId }) := by
  unfold switchToBranch
  rw [hc]
  dsimp only
  rw [if_neg (by simp [hyes])]

/-- Computation of `switchToBranch` when the branch is missing. -/
theorem switchToBranch_eq_of_missing (s : MState) (c : Conversation)
    (branchId : String) (hc : getCurrentConversation s = some c)
    (hno : ahas c.branches branchId = false) :
    switchToBranch s branchId = (false, s) := by
  unfold switchToBranch
  rw [hc]
  dsimp only
  rw [if_pos (by simp [hno])]

/-- C8: `switchToBranch` returns `false` and changes nothing when the
branch id is not a key of the focused conversation's flat map, and
otherwise updates the registry cursor and the conversation's own
cursor to the id, recomputes the conversation's breadcrumbs, and
returns `true`. -/
theorem switchToBranch_spec (s : MState) (c : Conversation)
    (branchId : String) (hc : getCurrentConversation s = some c) :
    (ahas c.branches branchId = false →
      switchToBranch s branchId = (false, s)) ∧
    (ahas c.branches branchId = true →
      (switchToBranch s branchId).1 = true ∧
      (switchToBranch s branchId).2.currentBranch = some branchId ∧
      (getCurrentConversation (switchToBranch s branchId).2).map
          (·.currentBranch) = some branchId ∧
      (getCurrentConversation (switchToBranch s branchId).2).map
          (·.breadcrumbs) =
        some (conversationBreadcrumbs
          { c with currentBranch := branchId } branchId)) := by
  have hsome : (getCurrentConversation s).isSome := by rw [hc]; rfl
  constructor
  · intro hno
    exact switchToBranch_eq_of_missing s c branchId hc hno
  · intro hyes
    rw [switchToBranch_eq_of_found s c branchId hc hyes]
    have hsome1 : (getCurrentConversation
        { writeCurrentConversation s { c with currentBranch := branchId }
            with currentBranch := some branchId }).isSome = true := by
      have : getCurrentConversation
          { writeCurrentConversation s { c with currentBranch := branchId }
              with currentBranch := some branchId } =
          getCurrentConversation
            (writeCurrentConversation s { c with currentBranch := branchId }) := by
        unfold getCurrentConversation
        rfl
      rw [this, getCurrentConversation_write _ hsome]
      rfl
    have hbc : generateBreadcrumbs
        { writeCurrentConversation s { c with currentBranch := branchId }
            with currentBranch := some branchId } branchId =
        conversationBreadcrumbs { c with currentBranch := branchId } branchId := by
      unfold generateBreadcrumbs
      have : getCurrentConversation
          { writeCurrentConversation s { c with currentBranch := branchId }
              with currentBranch := some branchId } =
          some { c with currentBranch := branchId } := by
        have heq : getCurrentConversation
            { writeCurrentConversation s { c with currentBranch := branchId }
                with currentBranch := some branchId } =
            getCurrentConversation
              (writeCurrentConversation s { c with currentBranch := branchId }) := by
          unfold getCurrentConversation
          rfl
        rw [heq, getCurrentConversation_write _ hsome]
      rw [this]
    refine ⟨rfl, ?_, ?_, ?_⟩
    · rw [writeCurrentConversation_currentBranch]
    · rw [getCurrentConversation_write _ hsome1]
      rfl
    · rw [getCurrentConversation_write _ hsome1]
      exact congrArg some hbc

/-- Witness for C8 at concrete inputs: switching the forked scenario to
a missing id fails and changes nothing; switching to `"main"` focuses
`"main"` in both cursors. -/
theorem switchToBranch_spec_witness :
    switchToBranch scenarioForked "branch_missing" = (false, scenarioForked) ∧
    (switchToBranch scenarioForked "main").1 = true ∧
    (switchToBranch scenarioForked "main").2.currentBranch = some "main" ∧
    (getCurrentConversation (switchToBranch scenarioForked "main").2).map
      (·.currentBranch) = some "main" := by
  have h := switchToBranch_spec scenarioForked
    ((getCurrentConversation scenarioForked).getD
      { id := "", title := "", createdAt := 0, branches := []
        currentBranch := "", breadcrumbs := [], condensedItems := none
        lastSummarizedMessageId := none, condensedLastUpdated := none
        condensedParseError := false, condensedErrorMessage := none })
  have hceq : getCurrentConversation scenarioForked =
      some ((getCurrentConversation scenarioForked).getD
      { id := "", title := "", createdAt := 0, branches := []
        currentBranch := "", breadcrumbs := [], condensedItems := none
        lastSummarizedMessageId := none, condensedLastUpdated := none
        condensedParseError := false, condensedErrorMessage := none }) := by
    decide
  refine ⟨(h "branch_missing" hceq).1 (by decide),
    ((h "main" hceq).2 (by decide)).1,
    ((h "main" hceq).2 (by decide)).2.1,
    ((h "main" hceq).2 (by decide)).2.2.1⟩


/-! ## Claim C7 -/

/-- `true` on `Except.error`. -/
def exceptErr {α : Type} : Except VErr α → Bool
  | .error _ => true
  | .ok _ => false

theorem string_length_zero_iff (s : String) : s.length = 0 ↔ s = "" := by
  constructor
  · intro h
    cases s with
    | mk d =>
      cases d with
      | nil => rfl
      | cons c cs => simp [String.length] at h
  · intro h
    subst h
    rfl

/-- If `validateMessage` succeeds, it returns the sanitised content. -/
theorem validateMessage_ok (content t : String)
    (h : validateMessage content = .ok t) : t = sanitizeInput content := by
  unfold validateMessage at h
  by_cases hc : content = ""
  · simp [hc] at h
  · simp only [hc, if_false] at h
    by_cases h1 : (sanitizeInput content).length < MIN_MESSAGE_LENGTH
    · simp [h1] at h
    · by_cases h2 : (sanitizeInput content).length > MAX_MESSAGE_LENGTH
      · simp [h1, h2] at h
      · simp only [h1, if_false, h2] at h
        exact (Except.ok.inj h).symm

/-- `validateMessage` fails exactly when the sanitised content is empty
or longer than the maximum. -/
theorem validateMessage_error_iff (content : String) :
    exceptErr (validateMessage content) = true ↔
      sanitizeInput content = "" ∨
      (sanitizeInput content).length > MAX_MESSAGE_LENGTH := by
  unfold validateMessage
  by_cases hc : content = ""
  · subst hc
    simp [exceptErr]
    decide
  · simp only [hc, if_false]
    have hm : MIN_MESSAGE_LENGTH = 1 := rfl
    by_cases h1 : (sanitizeInput content).length < MIN_MESSAGE_LENGTH
    · have hz : sanitizeInput content = "" := by
        rw [← string_length_zero_iff]
        omega
      simp [h1, exceptErr, hz, MIN_MESSAGE_LENGTH]
    · have hne : ¬ sanitizeInput content = "" := by
        intro he
        rw [← string_length_zero_iff] at he
        omega
      by_cases h2 : (sanitizeInput content).length > MAX_MESSAGE_LENGTH
      · simp [h1, h2, exceptErr]
      · simp [h1, h2, exceptErr, hne]

/-- The branch that `addMessage` / `toggleMessageStar` target: the
explicit `branchId` argument or, failing that, the registry cursor,
resolved in the focused conversation's flat map. -/
def targetBranchOf (s : MState) (branchId : Option String) : Option Branch :=
  (getCurrentConversation s).bind (fun c =>
    (match branchId with
      | some b => some b
      | none => s.currentBranch).bind (fun tb => aget c.branches tb))

/-- C7 counterexample: the claim says `addMessage` raises exactly when
the content is empty after trimming, or exceeds the maximum length, or
the sender is invalid, or no target branch exists.  The input `"<>"` is
none of these (nonempty after trimming, short, valid sender, target
branch exists) yet the code raises, because validation is keyed on the
sanitised content (`"<>"` sanitises to `""`), not the trimmed one. -/
theorem addMessage_claim_counterexample :
    trimChars ("<>".data) ≠ [] ∧
    (trimChars ("<>".data)).length ≤ MAX_MESSAGE_LENGTH ∧
    ("user" = "user" ∨ "user" = "assistant") ∧
    (targetBranchOf scenarioBase none).isSome = true ∧
    exceptErr (addMessage scenarioBase "<>" "user" none
      "msg_9_aaaaaaaaa" 5) = true := by
  refine ⟨by decide, by decide, Or.inl rfl, by decide, by decide⟩

/-- C7 as amended: `addMessage` raises `ValidationError` exactly when
the sanitised content is empty, or the sanitised content exceeds the
maximum length, or the sender is invalid, or no target branch exists
(no focused conversation, or the target id missing from the flat map);
a raise happens before any mutation (the embedding returns no state on
error because the source throws before its only mutation), and on
success exactly one new message, with the given fresh id,
`starred = false` and `branchPoint` true iff the sender is
`"assistant"`, is appended to the target branch and returned. -/
theorem addMessage_spec (s : MState) (content sender : String)
    (branchId : Option String) (msgId : String) (now : Nat) :
    (exceptErr (addMessage s content sender branchId msgId now) = true ↔
      sanitizeInput content = "" ∨
      (sanitizeInput content).length > MAX_MESSAGE_LENGTH ∨
      (sender ≠ "user" ∧ sender ≠ "assistant") ∨
      targetBranchOf s branchId = none) ∧
    (∀ m s', addMessage s content sender branchId msgId now = .ok (m, s') →
      m.id = msgId ∧ m.content = sanitizeInput content ∧ m.sender = sender ∧
      m.starred = false ∧ (m.branchPoint = true ↔ sender = "assistant") ∧
      m.timestamp = now ∧
      s'.heap = s.heap ++ [(s.nextRef, m)] ∧
      (∀ c tb b, getCurrentConversation s = some c →
        (match branchId with
          | some x => some x
          | none => s.currentBranch) = some tb →
        aget c.branches tb = some b →
        getCurrentConversation s' =
          some { c with branches := (aset c.branches tb
                  ({ b with messages := b.messages ++ [s.nextRef] })) })) := by
  rcases hv : validateMessage content with e | t
  · have heq : addMessage s content sender branchId msgId now = .error e := by
      unfold addMessage
      rw [hv]
    have herr := (validateMessage_error_iff content).mp (by rw [hv]; rfl)
    constructor
    · rw [heq]
      constructor
      · intro _
        rcases herr with h | h
        · exact Or.inl h
        · exact Or.inr (Or.inl h)
      · intro _
        rfl
    · intro m s' hok
      rw [heq] at hok
      exact absurd hok (by simp)
  · have ht : t = sanitizeInput content := validateMessage_ok content t hv
    have hnot : ¬ (sanitizeInput content = "" ∨
        (sanitizeInput content).length > MAX_MESSAGE_LENGTH) := by
      intro hcon
      have := (validateMessage_error_iff content).mpr hcon
      rw [hv] at this
      exact absurd this (by simp [exceptErr])
    by_cases hs : sender ≠ "user" ∧ sender ≠ "assistant"
    · have heq : addMessage s content sender branchId msgId now =
          .error ⟨"Invalid sender type"⟩ := by
        unfold addMessage
        rw [hv]
        dsimp only
        rw [if_pos hs]
      constructor
      · rw [heq]
        constructor
        · intro _
          exact Or.inr (Or.inr (Or.inl hs))
        · intro _
          rfl
      · intro m s' hok
        rw [heq] at hok
        exact absurd hok (by simp)
    · rcases hcc : getCurrentConversation s with _ | c
      · have heq : addMessage s content sender branchId msgId now =
            .error ⟨"No active conversation"⟩ := by
          unfold addMessage
          rw [hv]
          dsimp only
          rw [if_neg hs, hcc]
        have htgt : targetBranchOf s branchId = none := by
          unfold targetBranchOf
          rw [hcc]
          rfl
        constructor
        · rw [heq]
          constructor
          · intro _
            exact Or.inr (Or.inr (Or.inr htgt))
          · intro _
            rfl
        · intro m s' hok
          rw [heq] at hok
          exact absurd hok (by simp)
      · rcases htb : (match branchId with
            | some b => some b
            | none => s.currentBranch) with _ | tb
        · have heq : addMessage s content sender branchId msgId now =
              .error ⟨"Branch not found"⟩ := by
            unfold addMessage
            rw [hv]
            dsimp only
            rw [if_neg hs, hcc]
            dsimp only
            rw [htb]
          have htgt : targetBranchOf s branchId = none := by
            unfold targetBranchOf
            rw [hcc, htb]
            rfl
          constructor
          · rw [heq]
            constructor
            · intro _
              exact Or.inr (Or.inr (Or.inr htgt))
            · intro _
              rfl
          · intro m s' hok
            rw [heq] at hok
            exact absurd hok (by simp)
        · rcases hb : aget c.branches tb with _ | b
          · have heq : addMessage s content sender branchId msgId now =
                .error ⟨"Branch not found"⟩ := by
              unfold addMessage
              rw [hv]
              dsimp only
              rw [if_neg hs, hcc]
              dsimp only
              rw [htb]
              dsimp only
              rw [hb]
            have htgt : targetBranchOf s branchId = none := by
              unfold targetBranchOf
              rw [hcc, htb]
              simp [hb]
            constructor
            · rw [heq]
              constructor
              · intro _
                exact Or.inr (Or.inr (Or.inr htgt))
              · intro _
                rfl
            · intro m s' hok
              rw [heq] at hok
              exact absurd hok (by simp)
          · have heq : addMessage s content sender branchId msgId now =
                .ok ({ id := msgId, content := t, sender := sender,
                       timestamp := now,
                       branchPoint := sender = "assistant",
                       availableBranches := [], starred := false },
                  writeCurrentConversation
                    { s with
                        heap := s.heap ++ [(s.nextRef,
                          { id := msgId, content := t, sender := sender,
                            timestamp := now,
                            branchPoint := sender = "assistant",
                            availableBranches := [], starred := false })]
                        nextRef := s.nextRef + 1 }
                    { c with branches := (aset c.branches tb
                        ({ b with
                            messages := b.messages ++ [s.nextRef] })) }) := by
              unfold addMessage
              rw [hv]
              dsimp only
              rw [if_neg hs, hcc]
              dsimp only
              rw [htb]
              dsimp only
              rw [hb]
            have hsome : (getCurrentConversation s).isSome := by
              rw [hcc]; rfl
            have htgt : targetBranchOf s branchId ≠ none := by
              unfold targetBranchOf
              rw [hcc, htb]
              simp [hb]
            constructor
            · rw [heq]
              constructor
              · intro hfalse
                exact absurd hfalse (by simp [exceptErr])
              · intro hcon
                rcases hcon with h | h | h | h
                · exact absurd (Or.inl h) hnot
                · exact absurd (Or.inr h) hnot
                · exact absurd h hs
                · exact absurd h htgt
            · intro m s' hok
              rw [heq, Except.ok.injEq, Prod.mk.injEq] at hok
              obtain ⟨hm, hs'⟩ := hok
              refine ⟨?_, ?_, ?_, ?_, ?_, ?_, ?_, ?_⟩
              · rw [← hm]
              · rw [← hm, ht]
              · rw [← hm]
              · rw [← hm]
              · rw [← hm]
                simp
              · rw [← hm]
              · rw [← hs', writeCurrentConversation_heap, ← hm]
              · intro c0 tb0 b0 hc0 htb0 hb0
                obtain rfl : c = c0 := Option.some.inj hc0
                obtain rfl : tb = tb0 := Option.some.inj (htb.symm.trans htb0)
                obtain rfl : b = b0 := Option.some.inj (hb.symm.trans hb0)
                rw [← hs']
                have hsome2 : (getCurrentConversation
                    { s with
                        heap := s.heap ++ [(s.nextRef,
                          { id := msgId, content := t, sender := sender,
                            timestamp := now,
                            branchPoint := sender = "assistant",
                            availableBranches := [], starred := false })]
                        nextRef := s.nextRef + 1 }).isSome := hsome
                rw [getCurrentConversation_write _ hsome2]

/-- Witness for C7 at concrete inputs: a malformed sender fails (via
the characterisation), and a valid message append succeeds with the
created message's fields as specified. -/
theorem addMessage_spec_witness :
    exceptErr (addMessage scenarioBase "ok" "system" none
      "msg_9_aaaaaaaaa" 5) = true ∧
    ((addMessage scenarioBase "ok" "user" none "msg_9_aaaaaaaaa" 5).toOption.map
      (fun r => (r.1.id, r.1.starred, r.1.branchPoint))) =
      some ("msg_9_aaaaaaaaa", false, false) := by
  constructor
  · exact (addMessage_spec scenarioBase "ok" "system" none
      "msg_9_aaaaaaaaa" 5).1.mpr
      (Or.inr (Or.inr (Or.inl (by decide))))
  · decide

/-! ## Claim C9 -/

/-- A parent chain in a conversation: the list of branches visited by
following `parentBranchId` links from a branch up to a branch with no
parent, resolving every link in the flat map.  This is the hypothesis
form of the tree invariant used by the breadcrumb claim. -/
inductive ParentChain (conv : Conversation) : Branch → List Branch → Prop
  | root (b : Branch) (h : b.parentBranchId = none) : ParentChain conv b [b]
  | step (b p : Branch) (rest : List Branch) (pid : String)
      (h1 : b.parentBranchId = some pid)
      (h2 : aget conv.branches pid = some p)
      (hp : ParentChain conv p rest) : ParentChain conv b (b :: rest)

theorem ParentChain.head_eq {conv : Conversation} {b : Branch}
    {chain : List Branch} (h : ParentChain conv b chain) :
    ∃ t, chain = b :: t := by
  cases h with
  | root _ _ => exact ⟨[], rfl⟩
  | step _ p rest _ _ _ _ => exact ⟨rest, rfl⟩

/-- The breadcrumb loop follows a parent chain: with enough fuel it
produces the chain's titles above the accumulator, independently of the
exact fuel value (this is the termination content of the claim). -/
theorem breadcrumbLoop_chain {conv : Conversation} {b : Branch}
    {chain : List Branch} (h : ParentChain conv b chain) :
    ∀ fuel acc, chain.length ≤ fuel + 1 →
      breadcrumbLoop fuel conv b acc =
        (chain.tail.map (fun x => x.title)).reverse ++ acc := by
  induction h with
  | root b hb =>
    intro fuel acc hfuel
    cases fuel with
    | zero => simp [breadcrumbLoop]
    | succ f => simp [breadcrumbLoop, hb]
  | step b p rest pid h1 h2 hp ih =>
    intro fuel acc hfuel
    obtain ⟨rest', hrest⟩ := hp.head_eq
    cases fuel with
    | zero =>
      rw [hrest] at hfuel
      simp [List.length] at hfuel
    | succ f =>
      rw [breadcrumbLoop]
      rw [h1]
      dsimp only
      rw [h2]
      dsimp only
      rw [ih f (p.title :: acc) (by
        simp only [List.length_cons] at hfuel
        omega)]
      rw [hrest]
      simp [List.append_assoc]

/-- C9: under the tree invariant (stated as the existence of a parent
chain inside the flat map, bounded by the map's size, ending at the
branch stored under `"main"`), `generateBreadcrumbs` terminates with a
list of length depth + 1 whose first element is the main branch's title
and whose last element is the branch's own title; the loop result is
the same for every sufficient fuel. -/
theorem generateBreadcrumbs_spec (s : MState) (c : Conversation)
    (branchId : String) (b root : Branch) (chain : List Branch)
    (hc : getCurrentConversation s = some c)
    (hb : aget c.branches branchId = some b)
    (hchain : ParentChain c b chain)
    (hlen : chain.length ≤ c.branches.length)
    (hroot : chain.getLast? = some root)
    (hmain : aget c.branches "main" = some root) :
    generateBreadcrumbs s branchId =
      (chain.map (fun x => x.title)).reverse ∧
    (generateBreadcrumbs s branchId).length = (chain.length - 1) + 1 ∧
    (generateBreadcrumbs s branchId).head? = some root.title ∧
    (generateBreadcrumbs s branchId).getLast? = some b.title ∧
    (∀ fuel, chain.length ≤ fuel + 1 →
      breadcrumbLoop fuel c b [b.title] =
        (chain.map (fun x => x.title)).reverse) := by
  obtain ⟨t, hct⟩ := hchain.head_eq
  have hloop : ∀ fuel, chain.length ≤ fuel + 1 →
      breadcrumbLoop fuel c b [b.title] =
        (chain.map (fun x => x.title)).reverse := by
    intro fuel hfuel
    rw [breadcrumbLoop_chain hchain fuel [b.title] hfuel]
    rw [hct]
    simp
  have hmaineq : generateBreadcrumbs s branchId =
      (chain.map (fun x => x.title)).reverse := by
    unfold generateBreadcrumbs conversationBreadcrumbs
    rw [hc]
    dsimp only
    rw [hb]
    exact hloop c.branches.length (Nat.le_succ_of_le hlen)
  refine ⟨hmaineq, ?_, ?_, ?_, hloop⟩
  · rw [hmaineq]
    rw [hct]
    simp
  · rw [hmaineq]
    rw [← List.getLast?_eq_head?_reverse]
    rw [List.getLast?_map]
    rw [hroot]
    rfl
  · rw [hmaineq]
    rw [← List.head?_eq_getLast?_reverse]
    rw [List.head?_map]
    rw [hct]
    rfl

/-- Witness for C9: the two-branch forked scenario, whose focused
branch `"Tangent"` sits at depth 1 under main, yields breadcrumbs
`["Main Channel", "Tangent"]`. -/
theorem generateBreadcrumbs_spec_witness :
    generateBreadcrumbs scenarioForked "branch_1_aaaaaaaaa" =
      ["Main Channel", "Tangent"] ∧
    (generateBreadcrumbs scenarioForked "branch_1_aaaaaaaaa").length = 2 := by
  have hmainb : aget
      (((getCurrentConversation scenarioForked).getD
        { id := "", title := "", createdAt := 0, branches := []
          currentBranch := "", breadcrumbs := [], condensedItems := none
          lastSummarizedMessageId := none, condensedLastUpdated := none
          condensedParseError := false,
          condensedErrorMessage := none }).branches) "main" =
      some { id := "main", title := "Main Channel", parentBranchId := none
             parentMessageId := none, messages := [0, 1]
             branches := ["branch_1_aaaaaaaaa"], createdAt := 0
             isActive := true } := by decide
  have h := generateBreadcrumbs_spec scenarioForked
    ((getCurrentConversation scenarioForked).getD
      { id := "", title := "", createdAt := 0, branches := []
        currentBranch := "", breadcrumbs := [], condensedItems := none
        lastSummarizedMessageId := none, condensedLastUpdated := none
        condensedParseError := false, condensedErrorMessage := none })
    "branch_1_aaaaaaaaa"
    { id := "branch_1_aaaaaaaaa", title := "Tangent"
      parentBranchId := some "main"
      parentMessageId := some "msg_2_aaaaaaaaa", messages := [2, 3]
      branches := [], createdAt := 3, isActive := true }
    { id := "main", title := "Main Channel", parentBranchId := none
      parentMessageId := none, messages := [0, 1]
      branches := ["branch_1_aaaaaaaaa"], createdAt := 0, isActive := true }
    [{ id := "branch_1_aaaaaaaaa", title := "Tangent"
       parentBranchId := some "main"
       parentMessageId := some "msg_2_aaaaaaaaa", messages := [2, 3]
       branches := [], createdAt := 3, isActive := true },
     { id := "main", title := "Main Channel", parentBranchId := none
       parentMessageId := none, messages := [0, 1]
       branches := ["branch_1_aaaaaaaaa"], createdAt := 0
       isActive := true }]
    (by decide) (by decide)
    (ParentChain.step _ _ _ "main" (by decide) (by decide)
      (ParentChain.root _ (by decide)))
    (by decide) (by decide) hmainb
  exact ⟨h.1.trans (by decide), h.2.1.trans (by decide)⟩

/-! ## Claim C10 -/

/-- No angle bracket anywhere in the string. -/
def angleFree (s : String) : Bool :=
  s.data.all (fun c => c ≠ '<' && c ≠ '>')

theorem removeJsProtoF_sublist : ∀ (fuel : Nat) (l : List Char),
    List.Sublist (removeJsProtoF fuel l) l := by
  intro fuel
  induction fuel with
  | zero => intro l; simp [removeJsProtoF]
  | succ f ih =>
    intro l
    cases l with
    | nil => simp [removeJsProtoF]
    | cons c cs =>
      rw [removeJsProtoF]
      by_cases h : isJsProtoPrefix (c :: cs) = true
      · rw [if_pos h]
        exact (ih _).trans (List.drop_sublist 11 (c :: cs))
      · rw [if_neg h]
        exact List.Sublist.cons₂ c (ih cs)

theorem matchHandlerPrefix_sublist {l r : List Char}
    (h : matchHandlerPrefix l = some r) : List.Sublist r l := by
  unfold matchHandlerPrefix at h
  split at h
  · rename_i c0 c1 rest
    split at h
    · dsimp only at h
      split at h
      · split at h
        · rename_i tail heq
          obtain rfl : r = tail := (Option.some.inj h).symm
          have h1 : List.Sublist r (rest.dropWhile isWordChar) := by
            rw [heq]
            exact List.sublist_cons_self '=' r
          have h2 : List.Sublist (rest.dropWhile isWordChar) rest :=
            List.dropWhile_sublist isWordChar
          exact ((h1.trans h2).trans
            (List.sublist_cons_self c1 rest)).trans
            (List.sublist_cons_self c0 (c1 :: rest))
        · simp at h
      · simp at h
    · simp at h
  · simp at h

theorem removeHandlersF_sublist : ∀ (fuel : Nat) (l : List Char),
    List.Sublist (removeHandlersF fuel l) l := by
  intro fuel
  induction fuel with
  | zero => intro l; simp [removeHandlersF]
  | succ f ih =>
    intro l
    cases l with
    | nil => simp [removeHandlersF]
    | cons c cs =>
      rw [removeHandlersF]
      rcases hm : matchHandlerPrefix (c :: cs) with _ | rest
      · exact List.Sublist.cons₂ c (ih cs)
      · exact (ih rest).trans (matchHandlerPrefix_sublist hm)

/-- The sanitiser's output never contains an angle bracket: the second
`replace` removes every `<` and `>`, and the later replacements only
delete characters. -/
theorem sanitizeInput_angleFree (s : String) :
    angleFree (sanitizeInput s) = true := by
  unfold angleFree sanitizeInput sanitizeChars
  rw [List.all_eq_true]
  intro c hc
  have h1 : c ∈ removeJsProto (removeAngles (trimChars s.data)) :=
    (removeHandlersF_sublist _ _).subset hc
  have h2 : c ∈ removeAngles (trimChars s.data) :=
    (removeJsProtoF_sublist _ _).subset h1
  unfold removeAngles at h2
  exact (List.mem_filter.mp h2).2

/-- The C10-amended invariant: every conversation title, every branch
title and every heap message content is free of angle brackets. -/
def StateAngleFree (s : MState) : Prop :=
  (∀ p ∈ s.conversations, angleFree p.2.title = true ∧
    ∀ q ∈ p.2.branches, angleFree q.2.title = true) ∧
  (∀ e ∈ s.heap, angleFree e.2.content = true)

theorem validateBranchTitle_ok (title t : String)
    (h : validateBranchTitle title = .ok t) : t = sanitizeInput title := by
  unfold validateBranchTitle at h
  by_cases hc : title = ""
  · simp [hc] at h
  · simp only [hc, if_false] at h
    by_cases h1 : (sanitizeInput title).length = 0
    · simp [h1] at h
    · by_cases h2 : (sanitizeInput title).length > BRANCH_NAME_MAX_LENGTH
      · simp [h1, h2] at h
      · simp only [h1, if_false, h2] at h
        exact (Except.ok.inj h).symm

theorem getCurrentConversation_eq_some {s : MState} {c : Conversation}
    (h : getCurrentConversation s = some c) :
    ∃ cid, s.currentConversationId = some cid ∧
      aget s.conversations cid = some c := by
  unfold getCurrentConversation at h
  cases hcid : s.currentConversationId with
  | none => rw [hcid] at h; simp at h
  | some cid =>
    rw [hcid] at h
    exact ⟨cid, rfl, h⟩

theorem stateAngleFree_write {s : MState} {c : Conversation}
    (h : StateAngleFree s)
    (hc : angleFree c.title = true ∧
      ∀ q ∈ c.branches, angleFree q.2.title = true) :
    StateAngleFree (writeCurrentConversation s c) := by
  unfold writeCurrentConversation
  cases hcid : s.currentConversationId with
  | none => exact h
  | some cid =>
    refine ⟨?_, h.2⟩
    intro p hp
    rcases mem_aset hp with h1 | h1
    · rw [h1]
      exact hc
    · exact h.1 p h1

theorem copyMessages_heap_mem : ∀ (refs : List Nat)
    (h : List (Nat × Message)) (n : Nat) (e : Nat × Message),
    e ∈ (copyMessages refs h n).2.1 →
    e ∈ h ∨ ∃ r m, hget h r = some m ∧ e.2 = m := by
  intro refs
  induction refs with
  | nil =>
    intro h n e he
    exact Or.inl he
  | cons r rs ih =>
    intro h n e he
    rw [copyMessages] at he
    rcases hr : hget h r with _ | m
    · rw [hr] at he
      exact ih h n e he
    · rw [hr] at he
      dsimp only at he
      rcases ih (h ++ [(n, m)]) (n + 1) e he with h1 | ⟨r', m', hm', he'⟩
      · rcases List.mem_append.mp h1 with h2 | h2
        · exact Or.inl h2
        · have : e = (n, m) := by simpa using h2
          exact Or.inr ⟨r, m, hr, by rw [this]⟩
      · unfold hget at hm'
        rw [aget_append] at hm'
        rcases hold : aget h r' with _ | mold
        · rw [hold] at hm'
          simp only [Option.orElse] at hm'
          by_cases hr'n : n = r'
          · have hm : m = m' := by simpa [aget, hr'n] using hm'
            exact Or.inr ⟨r, m, hr, by rw [he', ← hm]⟩
          · exfalso
            simp [aget, hr'n] at hm'
        · rw [hold] at hm'
          simp only [Option.orElse] at hm'
          have : mold = m' := Option.some.inj hm'
          exact Or.inr ⟨r', m', by rw [show hget h r' = aget h r' from rfl, hold, this], he'⟩

theorem conversation_titles_of_mem {s : MState} {c : Conversation}
    (h : StateAngleFree s) (hc : getCurrentConversation s = some c) :
    angleFree c.title = true ∧
      ∀ q ∈ c.branches, angleFree q.2.title = true := by
  obtain ⟨cid, hcid, hmem⟩ := getCurrentConversation_eq_some hc
  exact h.1 _ (aget_mem hmem)

theorem pres_switchToBranch (s : MState) (bid : String)
    (h : StateAngleFree s) : StateAngleFree (switchToBranch s bid).2 := by
  unfold switchToBranch
  rcases hcc : getCurrentConversation s with _ | conversation
  · exact h
  · dsimp only
    by_cases hhas : ahas conversation.branches bid
    · rw [if_neg (by simp [hhas])]
      dsimp only
      have hprops := conversation_titles_of_mem h hcc
      have h1 : StateAngleFree
          (writeCurrentConversation s
            { conversation with currentBranch := bid }) :=
        stateAngleFree_write h hprops
      exact stateAngleFree_write (s := { writeCurrentConversation s
          { conversation with currentBranch := bid } with
          currentBranch := some bid })
        (by exact h1) hprops
    · rw [if_pos (by simp [hhas])]
      exact h

theorem pres_closeBranch (s : MState) (bid : String)
    (h : StateAngleFree s) : StateAngleFree (closeBranch s bid).2 := by
  unfold closeBranch
  rcases hcc : getCurrentConversation s with _ | conversation
  · exact h
  · dsimp only
    by_cases hmain : bid = "main"
    · rw [if_pos hmain]
      exact h
    · rw [if_neg hmain]
      rcases hb : aget conversation.branches bid with _ | branch
      · exact h
      · dsimp only
        have hprops := conversation_titles_of_mem h hcc
        have hbt : angleFree branch.title = true :=
          (hprops.2 _ (aget_mem hb))
        have hprops' : angleFree
            ({ conversation with branches := (aset conversation.branches bid
              ({ branch with isActive := false })) } : Conversation).title = true ∧
            ∀ q ∈ ({ conversation with
                branches := (aset conversation.branches bid
                  ({ branch with isActive := false })) } : Conversation).branches,
              angleFree q.2.title = true := by
          refine ⟨hprops.1, ?_⟩
          intro q hq
          rcases mem_aset hq with h1 | h1
          · rw [h1]
            exact hbt
          · exact hprops.2 q h1
        have h1 : StateAngleFree (writeCurrentConversation s
            { conversation with branches := (aset conversation.branches bid
              ({ branch with isActive := false })) }) :=
          stateAngleFree_write h hprops'
        by_cases hcur : s.currentBranch = some bid
        · rw [if_pos hcur]
          exact pres_switchToBranch _ _ h1
        · rw [if_neg hcur]
          exact h1

theorem pres_deleteConversation (s : MState) (cid : String)
    (h : StateAngleFree s) : StateAngleFree (deleteConversation s cid).2 := by
  unfold deleteConversation
  by_cases hhas : ahas s.conversations cid
  · rw [if_neg (by simp [hhas])]
    dsimp only
    by_cases hcur : s.currentConversationId = some cid
    · rw [if_pos hcur]
      exact ⟨fun p hp => h.1 p (mem_adel hp), h.2⟩
    · rw [if_neg hcur]
      exact ⟨fun p hp => h.1 p (mem_adel hp), h.2⟩
  · rw [if_pos (by simp [hhas])]
    exact h

theorem pres_handleDeleteBranch (s : MState) (bid : String)
    (h : StateAngleFree s) : StateAngleFree (handleDeleteBranch s bid) := by
  unfold handleDeleteBranch
  rcases hcc : getCurrentConversation s with _ | conversation
  · exact h
  · dsimp only
    by_cases hmain : bid = "main"
    · rw [if_pos hmain]
      exact h
    · rw [if_neg hmain]
      have hprops := conversation_titles_of_mem h hcc
      have h1 : StateAngleFree (writeCurrentConversation s
          { conversation with
              branches := adel conversation.branches bid }) := by
        refine stateAngleFree_write h ⟨hprops.1, ?_⟩
        intro q hq
        exact hprops.2 q (mem_adel hq)
      by_cases hcur : (writeCurrentConversation s
          { conversation with
              branches := adel conversation.branches bid }).currentBranch =
          some bid
      · rw [if_pos hcur]
        exact ⟨h1.1, h1.2⟩
      · rw [if_neg hcur]
        exact h1

theorem pres_toggleMessageStar (s : MState) (mid : String)
    (bid : Option String) (h : StateAngleFree s) :
    StateAngleFree (match toggleMessageStar s mid bid with
      | .error _ => s
      | .ok r => r.2) := by
  unfold toggleMessageStar
  by_cases hv : ¬ validateMessageIdFormat mid = true
  · rw [if_pos hv]
    exact h
  · rw [if_neg hv]
    rcases hcc : getCurrentConversation s with _ | conversation
    · exact h
    · dsimp only
      rcases htb : (match bid with
          | some b => some b
          | none => s.currentBranch) with _ | tb
      · try rw [htb]
        exact h
      · try rw [htb]
        try dsimp only
        rcases hb : aget conversation.branches tb with _ | branch
        · try rw [hb]
          exact h
        · try rw [hb]
          try dsimp only
          rcases hf : branch.messages.find?
              (fun r => (hget s.heap r).map (·.id) = some mid) with _ | r
          · try rw [hf]
            exact h
          · try rw [hf]
            try dsimp only
            rcases hm : hget s.heap r with _ | m
            · try rw [hm]
              exact h
            · try rw [hm]
              try dsimp only
              refine ⟨h.1, ?_⟩
              intro e he
              rcases mem_aset he with h1 | h1
              · rw [h1]
                have hmem : (r, m) ∈ s.heap := aget_mem hm
                exact h.2 (r, m) hmem
              · exact h.2 e h1

theorem pres_createConversation (s : MState) (title id : String) (now : Nat)
    (h : StateAngleFree s) :
    StateAngleFree (match createConversation s title id now with
      | .error _ => s
      | .ok r => r.2) := by
  unfold createConversation
  rcases hv : validateBranchTitle title with e | t
  · exact h
  · have ht : t = sanitizeInput title := validateBranchTitle_ok title t hv
    rcases hmb : createBranchRecord "main" "Main Channel" none none now
        with e | mb
    · exact h
    · dsimp only
      have hmbt : mb.title = "Main Channel" := by
        have : createBranchRecord "main" "Main Channel" none none now =
            .ok { id := "main", title := "Main Channel"
                  parentBranchId := none, parentMessageId := none
                  messages := [], branches := [], createdAt := now
                  isActive := true } := by
          unfold createBranchRecord
          rw [show validateBranchTitle "Main Channel" =
            .ok "Main Channel" from rfl]
        rw [this] at hmb
        rw [← Except.ok.inj hmb]
      refine ⟨?_, h.2⟩
      intro p hp
      rcases mem_aset hp with h1 | h1
      · rw [h1]
        refine ⟨by rw [ht]; exact sanitizeInput_angleFree title, ?_⟩
        intro q hq
        rcases mem_aset hq with h2 | h2
        · rw [h2]
          dsimp only
          rw [hmbt]
          decide
        · simp at h2
      · exact h.1 p h1

theorem pres_addMessage (s : MState) (content sender : String)
    (branchId : Option String) (msgId : String) (now : Nat)
    (h : StateAngleFree s) :
    StateAngleFree (match addMessage s content sender branchId msgId now with
      | .error _ => s
      | .ok r => r.2) := by
  unfold addMessage
  rcases hv : validateMessage content with e | t
  · exact h
  · have ht : t = sanitizeInput content := validateMessage_ok content t hv
    dsimp only
    by_cases hs : sender ≠ "user" ∧ sender ≠ "assistant"
    · rw [if_pos hs]
      exact h
    · rw [if_neg hs]
      rcases hcc : getCurrentConversation s with _ | conversation
      · exact h
      · dsimp only
        rcases htb : (match branchId with
            | some b => some b
            | none => s.currentBranch) with _ | tb
        · try rw [htb]
          exact h
        · try rw [htb]
          try dsimp only
          rcases hb : aget conversation.branches tb with _ | branch
          · try rw [hb]
            exact h
          · try rw [hb]
            try dsimp only
            have hprops := conversation_titles_of_mem h hcc
            have hheap : StateAngleFree
                { s with
                    heap := s.heap ++ [(s.nextRef,
                      { id := msgId, content := t, sender := sender
                        timestamp := now
                        branchPoint := sender = "assistant"
                        availableBranches := [], starred := false })]
                    nextRef := s.nextRef + 1 } := by
              refine ⟨h.1, ?_⟩
              intro e he
              rcases List.mem_append.mp he with h1 | h1
              · exact h.2 e h1
              · have he2 : e = (s.nextRef,
                    { id := msgId, content := t, sender := sender
                      timestamp := now
                      branchPoint := sender = "assistant"
                      availableBranches := [], starred := false }) := by
                  simpa using h1
                rw [he2]
                dsimp only
                rw [ht]
                exact sanitizeInput_angleFree content
            refine stateAngleFree_write hheap ⟨hprops.1, ?_⟩
            intro q hq
            rcases mem_aset hq with h1 | h1
            · rw [h1]
              have hmem : (tb, branch) ∈ conversation.branches := aget_mem hb
              exact hprops.2 (tb, branch) hmem
            · exact hprops.2 q h1

theorem createBranchRecord_ok {id ti : String} {p pm : Option String}
    {now : Nat} {b : Branch}
    (h : createBranchRecord id ti p pm now = .ok b) :
    b = { id := id, title := sanitizeInput ti, parentBranchId := p
          parentMessageId := pm, messages := [], branches := []
          createdAt := now, isActive := true } := by
  unfold createBranchRecord at h
  rcases hv : validateBranchTitle ti with e | t
  · rw [hv] at h
    simp at h
  · rw [hv] at h
    have ht : t = sanitizeInput ti := validateBranchTitle_ok ti t hv
    rw [← Except.ok.inj h, ht]

theorem pres_createBranchFromMessage (s : MState)
    (messageId branchTitle newBranchId : String) (now : Nat)
    (h : StateAngleFree s) :
    StateAngleFree
      (match createBranchFromMessage s messageId branchTitle newBranchId now
        with
        | .error _ => s
        | .ok r => r.2) := by
  unfold createBranchFromMessage
  by_cases hid : ¬ validateMessageIdFormat messageId = true
  · rw [if_pos hid]
    exact h
  · rw [if_neg hid]
    rcases hv : validateBranchTitle branchTitle with e | t
    · exact h
    · dsimp only
      rcases hcc : getCurrentConversation s with _ | conversation
      · exact h
      · dsimp only
        rcases hsb : s.currentBranch with _ | cb
        · try rw [hsb]
          exact h
        · try rw [hsb]
          try dsimp only
          rcases hcb : aget conversation.branches cb with _ | currentBranch
          · try rw [hcb]
            exact h
          · try rw [hcb]
            try dsimp only
            rcases hnb : createBranchRecord newBranchId t (some cb)
                (some messageId) now with e | newBranch
            · try rw [hnb]
              exact h
            · try rw [hnb]
              try dsimp only
              rcases hidx : currentBranch.messages.findIdx?
                  (fun r => (hget s.heap r).map (·.id) = some messageId)
                  with _ | messageIndex
              · try rw [hidx]
                exact h
              · try rw [hidx]
                try dsimp only
                have hprops := conversation_titles_of_mem h hcc
                have hnbt : newBranch.title = sanitizeInput t := by
                  rw [createBranchRecord_ok hnb]
                have hheap : StateAngleFree
                    { s with
                        heap := (copyMessages
                          (currentBranch.messages.take (messageIndex + 1))
                          s.heap s.nextRef).2.1
                        nextRef := (copyMessages
                          (currentBranch.messages.take (messageIndex + 1))
                          s.heap s.nextRef).2.2 } := by
                  refine ⟨h.1, ?_⟩
                  intro e he
                  rcases copyMessages_heap_mem _ _ _ e he with h1 | ⟨r, m, hm, he2⟩
                  · exact h.2 e h1
                  · rw [he2]
                    exact h.2 _ (aget_mem hm)
                refine pres_switchToBranch _ _ ?_
                refine stateAngleFree_write hheap ⟨hprops.1, ?_⟩
                intro q hq
                rcases mem_aset hq with h1 | h1
                · rw [h1]
                  dsimp only
                  rw [hnbt]
                  exact sanitizeInput_angleFree t
                · rcases mem_aset h1 with h2 | h2
                  · rw [h2]
                    have hmem : (cb, currentBranch) ∈ conversation.branches :=
                      aget_mem hcb
                    exact hprops.2 (cb, currentBranch) hmem
                  · exact hprops.2 q h2

theorem pres_getCondensedLog (s : MState) (forceRefresh : Bool)
    (oracle : CondenseOracle) (now : Nat) (h : StateAngleFree s) :
    StateAngleFree (getCondensedLog s forceRefresh oracle now).2.1 := by
  unfold getCondensedLog
  rcases hcc : getCurrentConversation s with _ | conversation
  · exact h
  · dsimp only
    by_cases hempty : getMessagesForCondensing s = []
    · rw [if_pos hempty]
      exact h
    · rw [if_neg hempty]
      by_cases hneed : ¬ (forceRefresh ||
          conversation.condensedItems.getD [] = [] ||
          hasNewMessagesSinceLastSummary (getMessagesForCondensing s)
            conversation.lastSummarizedMessageId) = true
      · rw [if_pos hneed]
        exact h
      · rw [if_neg hneed]
        have hprops := conversation_titles_of_mem h hcc
        exact stateAngleFree_write h ⟨hprops.1, hprops.2⟩

theorem pres_applyOp (op : Op) (s : MState) (h : StateAngleFree s) :
    StateAngleFree (applyOp s op) := by
  cases op with
  | createConversation title id now =>
    exact pres_createConversation s title id now h
  | addMessage content sender branchId msgId now =>
    exact pres_addMessage s content sender branchId msgId now h
  | createBranchFromMessage messageId branchTitle newBranchId now =>
    exact pres_createBranchFromMessage s messageId branchTitle newBranchId
      now h
  | switchToBranch branchId => exact pres_switchToBranch s branchId h
  | closeBranch branchId => exact pres_closeBranch s branchId h
  | deleteConversation conversationId =>
    exact pres_deleteConversation s conversationId h
  | handleDeleteBranch branchId =>
    exact pres_handleDeleteBranch s branchId h
  | toggleMessageStar messageId branchId =>
    exact pres_toggleMessageStar s messageId branchId h
  | condense forceRefresh resp now =>
    exact pres_getCondensedLog s forceRefresh (fun _ => resp) now h

/-- C10 as amended: after any sequence of manager operations starting
from the constructor state, every stored conversation title, branch
title and message content has passed through `sanitizeInput` and hence
contains no angle bracket.  (The trimming, `javascript:`-removal and
event-handler-removal parts of the original claim do NOT survive
sanitisation — see the counterexample — so only the angle-bracket
guarantee is invariant.) -/
theorem runOps_angleFree (ops : List Op) :
    StateAngleFree (runOps ops initialState) := by
  have hrun : ∀ (l : List Op) (s : MState), StateAngleFree s →
      StateAngleFree (runOps l s) := by
    intro l
    induction l with
    | nil => intro s hs; exact hs
    | cons op rest ih =>
      intro s hs
      exact ih (applyOp s op) (pres_applyOp op s hs)
  refine hrun ops initialState ?_
  exact ⟨fun p hp => absurd hp (List.not_mem_nil p),
    fun e he => absurd he (List.not_mem_nil e)⟩

/-- Witness for C10 at a concrete operation sequence. -/
theorem runOps_angleFree_witness :
    StateAngleFree (runOps
      [ .createConversation "C" "conv_1_aaaaaaaaa" 0,
        .addMessage "a <b>" "user" none "msg_1_aaaaaaaaa" 1 ]
      initialState) :=
  runOps_angleFree
    [ .createConversation "C" "conv_1_aaaaaaaaa" 0,
      .addMessage "a <b>" "user" none "msg_1_aaaaaaaaa" 1 ]

/-- Case-sensitive scan for a literal `javascript:` substring. -/
def hasJsProtoSubstring : List Char → Bool
  | [] => false
  | c :: cs =>
      List.isPrefixOf ("javascript:".data) (c :: cs) || hasJsProtoSubstring cs

/-- C10 counterexample: the claim says every stored content is trimmed
and free of `javascript:` substrings and inline event-handler patterns.
All three fail because one deletion pass can splice a new match
together and expose whitespace: the stored content for input
`"jjavascript:avascript:"` is exactly `"javascript:"`; the sanitiser
output for `"oonclick=nclick=x"` still starts with an event-handler
pattern; and the output for `"a < "` ends in a space (not trimmed). -/
theorem sanitizeInput_claim_counterexample :
    ((hget (runOps
        [ .createConversation "C" "conv_1_aaaaaaaaa" 0,
          .addMessage "jjavascript:avascript:" "user" none
            "msg_1_aaaaaaaaa" 1 ]
        initialState).heap 0).map (fun m => m.content)) =
      some "javascript:" ∧
    hasJsProtoSubstring ("javascript:".data) = true ∧
    sanitizeInput "oonclick=nclick=x" = "onclick=x" ∧
    (matchHandlerPrefix ("onclick=x".data)).isSome = true ∧
    sanitizeInput "a < " = "a " ∧
    trimChars (("a ").data) ≠ ("a ").data := by
  refine ⟨by decide, by decide, by decide, by decide, by decide, by decide⟩

/-! ## Claim C2 -/

theorem filterMap_ext_mem {α β : Type} {l : List α} {f g : α → Option β}
    (h : ∀ a ∈ l, f a = g a) : l.filterMap f = l.filterMap g := by
  induction l with
  | nil => rfl
  | cons a rest ih =>
    rw [List.filterMap_cons, List.filterMap_cons,
      h a (List.mem_cons_self a rest),
      ih (fun x hx => h x (List.mem_cons_of_mem a hx))]

theorem aget_none_of_keys_lt {h : List (Nat × Message)} {n : Nat}
    (hk : ∀ e ∈ h, e.1 < n) : aget h n = none := by
  induction h with
  | nil => rfl
  | cons e rest ih =>
    rw [aget]
    rw [if_neg (by
      have := hk e (List.mem_cons_self e rest)
      omega)]
    exact ih (fun x hx => hk x (List.mem_cons_of_mem e hx))

/-- Specification of the fork's deep copy: the fresh references resolve
to exactly the copied payloads, old references are untouched, all heap
keys stay below the new allocation counter, and the fresh references
all sit at or above the old counter. -/
theorem copyMessages_spec : ∀ (refs : List Nat)
    (h : List (Nat × Message)) (n : Nat),
    (∀ r ∈ refs, r < n) → (∀ e ∈ h, e.1 < n) →
    ((copyMessages refs h n).1.filterMap (hget (copyMessages refs h n).2.1) =
      refs.filterMap (hget h)) ∧
    (∀ r, r < n → hget (copyMessages refs h n).2.1 r = hget h r) ∧
    (∀ e ∈ (copyMessages refs h n).2.1, e.1 < (copyMessages refs h n).2.2) ∧
    n ≤ (copyMessages refs h n).2.2 ∧
    (∀ r ∈ (copyMessages refs h n).1,
      n ≤ r ∧ r < (copyMessages refs h n).2.2) := by
  intro refs
  induction refs with
  | nil =>
    intro h n hr hk
    refine ⟨rfl, fun r _ => rfl, ?_, Nat.le_refl n, ?_⟩
    · intro e he
      exact hk e he
    · intro r hr2
      exact absurd hr2 (List.not_mem_nil r)
  | cons r rs ih =>
    intro h n hr hk
    rcases hm : hget h r with _ | m
    · rw [copyMessages, hm]
      have hr' : ∀ x ∈ rs, x < n :=
        fun x hx => hr x (List.mem_cons_of_mem r hx)
      obtain ⟨ih1, ih2, ih3, ih4, ih5⟩ := ih h n hr' hk
      refine ⟨?_, ih2, ih3, ih4, ih5⟩
      rw [ih1, List.filterMap_cons]
      rw [show hget h r = none from hm]
    · rw [copyMessages, hm]
      dsimp only
      have hr' : ∀ x ∈ rs, x < n + 1 := by
        intro x hx
        have := hr x (List.mem_cons_of_mem r hx)
        omega
      have hk' : ∀ e ∈ h ++ [(n, m)], e.1 < n + 1 := by
        intro e he
        rcases List.mem_append.mp he with h1 | h1
        · have := hk e h1
          omega
        · have : e = (n, m) := by simpa using h1
          rw [this]
          omega
      obtain ⟨ih1, ih2, ih3, ih4, ih5⟩ := ih (h ++ [(n, m)]) (n + 1) hr' hk'
      have hgetn : hget (h ++ [(n, m)]) n = some m := by
        unfold hget
        rw [aget_append, aget_none_of_keys_lt hk]
        simp [aget, Option.orElse]
      have hold : ∀ x, x < n → hget (h ++ [(n, m)]) x = hget h x := by
        intro x hx
        unfold hget
        rw [aget_append]
        rcases hax : aget h x with _ | mx
        · simp only [Option.orElse]
          rw [aget]
          rw [if_neg (by omega)]
          rfl
        · rfl
      refine ⟨?_, ?_, ih3, by omega, ?_⟩
      · rw [List.filterMap_cons]
        rw [show hget (copyMessages rs (h ++ [(n, m)]) (n + 1)).2.1 n =
          some m from by rw [ih2 n (by omega)]; exact hgetn]
        rw [ih1]
        rw [List.filterMap_cons]
        rw [show hget h r = some m from hm]
        rw [filterMap_ext_mem (fun x hx => hold x (hr x
          (List.mem_cons_of_mem r hx)))]
      · intro x hx
        rw [ih2 x (by omega)]
        exact hold x hx
      · intro x hx
        rcases List.mem_cons.mp hx with h1 | h1
        · subst h1
          exact ⟨Nat.le_refl x, by omega⟩
        · have := ih5 x h1
          exact ⟨by omega, this.2⟩

/-- C2: forking from a message of the current branch produces a branch
whose message payloads are, element for element, the parent's payloads
up to and including the forked message (same id, content, sender and
starred value — the copies are whole-record equal), and because the
copies are fresh heap objects, toggling a star through the fork never
changes any of the parent's payloads and toggling through the parent
never changes any of the fork's payloads. -/
theorem createBranchFromMessage_fork_spec
    (s : MState) (c : Conversation) (cid cb : String) (P : Branch)
    (messageId branchTitle newBranchId : String) (now : Nat)
    (hcid : s.currentConversationId = some cid)
    (hc : aget s.conversations cid = some c)
    (hcb : s.currentBranch = some cb)
    (hP : aget c.branches cb = some P)
    (hrefs : ∀ r ∈ P.messages, r < s.nextRef)
    (hheap : ∀ e ∈ s.heap, e.1 < s.nextRef)
    (hne : cb ≠ newBranchId)
    (idx : Nat)
    (hidx : P.messages.findIdx?
      (fun r => (hget s.heap r).map (·.id) = some messageId) = some idx)
    (nb : Branch) (s' : MState)
    (hrun : createBranchFromMessage s messageId branchTitle newBranchId now
      = .ok (nb, s')) :
    nb.messages.filterMap (hget s'.heap) =
      (P.messages.take (idx + 1)).filterMap (hget s.heap) ∧
    nb.parentBranchId = some cb ∧
    nb.parentMessageId = some messageId ∧
    (∀ mid v s2, toggleMessageStar s' mid (some newBranchId) = .ok (v, s2) →
      P.messages.filterMap (hget s2.heap) =
        P.messages.filterMap (hget s'.heap)) ∧
    (∀ mid v s2, toggleMessageStar s' mid (some cb) = .ok (v, s2) →
      nb.messages.filterMap (hget s2.heap) =
        nb.messages.filterMap (hget s'.heap)) := by
  have hgc : getCurrentConversation s = some c := by
    unfold getCurrentConversation
    rw [hcid]
    exact hc
  by_cases hvid : ¬ validateMessageIdFormat messageId = true
  · have heq : createBranchFromMessage s messageId branchTitle newBranchId now
        = .error ⟨"Invalid message ID format"⟩ := by
      unfold createBranchFromMessage
      rw [if_pos hvid]
    rw [heq] at hrun
    exact absurd hrun (by simp)
  · rcases hv : validateBranchTitle branchTitle with e | t
    · have heq : createBranchFromMessage s messageId branchTitle newBranchId
          now = .error e := by
        unfold createBranchFromMessage
        rw [if_neg hvid, hv]
      rw [heq] at hrun
      exact absurd hrun (by simp)
    · rcases hnbr : createBranchRecord newBranchId t (some cb)
          (some messageId) now with e | newBranch
      · have heq : createBranchFromMessage s messageId branchTitle
            newBranchId now = .error e := by
          unfold createBranchFromMessage
          rw [if_neg hvid, hv]
          dsimp only
          rw [hgc]
          dsimp only
          rw [hcb]
          dsimp only
          rw [hP]
          dsimp only
          rw [hnbr]
        rw [heq] at hrun
        exact absurd hrun (by simp)
      · have hnbshape := createBranchRecord_ok hnbr
        have heq : createBranchFromMessage s messageId branchTitle
            newBranchId now =
            .ok ({ newBranch with
                    messages := (copyMessages (P.messages.take (idx + 1))
                      s.heap s.nextRef).1 },
              (switchToBranch
                (writeCurrentConversation
                  { s with
                      heap := (copyMessages (P.messages.take (idx + 1))
                        s.heap s.nextRef).2.1
                      nextRef := (copyMessages (P.messages.take (idx + 1))
                        s.heap s.nextRef).2.2 }
                  { c with
                      branches := aset
                        (aset c.branches cb
                          ({ P with
                              branches :=
                                if newBranchId ∈ P.branches then P.branches
                                else P.branches ++ [newBranchId] }))
                        newBranchId
                        ({ newBranch with
                            messages := (copyMessages
                              (P.messages.take (idx + 1))
                              s.heap s.nextRef).1 }) })
                newBranchId).2) := by
          unfold createBranchFromMessage
          rw [if_neg hvid, hv]
          dsimp only
          rw [hgc]
          dsimp only
          rw [hcb]
          dsimp only
          rw [hP]
          dsimp only
          rw [hnbr]
          dsimp only
          rw [hidx]
        rw [heq, Except.ok.injEq, Prod.mk.injEq] at hrun
        obtain ⟨hnb, hs'⟩ := hrun
        set res := copyMessages (P.messages.take (idx + 1)) s.heap s.nextRef
          with hres
        have hcopy := copyMessages_spec (P.messages.take (idx + 1)) s.heap
          s.nextRef
          (fun r hr => hrefs r (List.mem_of_mem_take hr)) hheap
        set P' : Branch :=
          { P with
              branches := if newBranchId ∈ P.branches then P.branches
                else P.branches ++ [newBranchId] } with hP'
        set NB : Branch := { newBranch with messages := res.1 } with hNB
        set conv' : Conversation :=
          { c with branches := aset (aset c.branches cb P') newBranchId NB }
          with hconv'
        set sMid : MState :=
          { s with heap := res.2.1, nextRef := res.2.2 } with hsMid
        have hgcMid : getCurrentConversation sMid = some c := by
          unfold getCurrentConversation
          rw [show sMid.currentConversationId = s.currentConversationId
            from rfl, hcid]
          exact hc
        have hsomeMid : (getCurrentConversation sMid).isSome := by
          rw [hgcMid]; rfl
        have hgc1 : getCurrentConversation
            (writeCurrentConversation sMid conv') = some conv' :=
          getCurrentConversation_write conv' hsomeMid
        have hhasNB : ahas conv'.branches newBranchId = true := by
          unfold ahas
          rw [hconv']
          dsimp only
          rw [aget_aset_self]
          rfl
        have hswitch := switchToBranch_eq_of_found
          (writeCurrentConversation sMid conv') conv' newBranchId hgc1 hhasNB
        rw [hswitch] at hs'
        set conv2 : Conversation :=
          { conv' with
              currentBranch := newBranchId
              breadcrumbs := generateBreadcrumbs
                { writeCurrentConversation
                    (writeCurrentConversation sMid conv')
                    { conv' with currentBranch := newBranchId } with
                    currentBranch := some newBranchId } newBranchId }
          with hconv2
        have hs'heap : s'.heap = res.2.1 := by
          rw [← hs']
          dsimp only
          rw [writeCurrentConversation_heap]
          rw [show ({ writeCurrentConversation
              (writeCurrentConversation sMid conv')
              { conv' with currentBranch := newBranchId } with
              currentBranch := some newBranchId } : MState).heap =
            (writeCurrentConversation
              (writeCurrentConversation sMid conv')
              { conv' with currentBranch := newBranchId }).heap from rfl]
          rw [writeCurrentConversation_heap, writeCurrentConversation_heap]
        have hgc' : getCurrentConversation s' = some conv2 := by
          rw [← hs']
          have hsome2 : (getCurrentConversation
              { writeCurrentConversation
                  (writeCurrentConversation sMid conv')
                  { conv' with currentBranch := newBranchId } with
                  currentBranch := some newBranchId }).isSome := by
            have hx : getCurrentConversation
                { writeCurrentConversation
                    (writeCurrentConversation sMid conv')
                    { conv' with currentBranch := newBranchId } with
                    currentBranch := some newBranchId } =
                getCurrentConversation
                  (writeCurrentConversation
                    (writeCurrentConversation sMid conv')
                    { conv' with currentBranch := newBranchId }) := rfl
            rw [hx]
            have hsome1 : (getCurrentConversation
                (writeCurrentConversation sMid conv')).isSome := by
              rw [hgc1]; rfl
            rw [getCurrentConversation_write _ hsome1]
            rfl
          exact getCurrentConversation_write _ hsome2
        have hnbm : nb.messages = res.1 := by
          rw [← hnb]
        have hbranchesNB : aget conv2.branches newBranchId = some NB := by
          rw [show conv2.branches = conv'.branches from rfl, hconv']
          dsimp only
          exact aget_aset_self _ _ _
        have hbranchesP : aget conv2.branches cb = some P' := by
          rw [show conv2.branches = conv'.branches from rfl, hconv']
          dsimp only
          rw [aget_aset_ne _ _ _ _ hne]
          exact aget_aset_self _ _ _
        refine ⟨?_, ?_, ?_, ?_, ?_⟩
        · rw [hnbm, hs'heap]
          exact hcopy.1
        · rw [← hnb, show NB.parentBranchId = newBranch.parentBranchId
            from rfl, hnbshape]
        · rw [← hnb, show NB.parentMessageId = newBranch.parentMessageId
            from rfl, hnbshape]
        · intro mid v s2 htog
          unfold toggleMessageStar at htog
          by_cases hvm : ¬ validateMessageIdFormat mid = true
          · rw [if_pos hvm] at htog
            exact absurd htog (by simp)
          · rw [if_neg hvm, hgc'] at htog
            dsimp only at htog
            rw [hbranchesNB] at htog
            dsimp only at htog
            rcases hf : NB.messages.find?
                (fun r => (hget s'.heap r).map (·.id) = some mid)
                with _ | rT
            · rw [hf] at htog
              exact absurd htog (by simp)
            · rw [hf] at htog
              dsimp only at htog
              rcases hmT : hget s'.heap rT with _ | mT
              · rw [hmT] at htog
                exact absurd htog (by simp)
              · rw [hmT] at htog
                dsimp only at htog
                rw [Except.ok.injEq, Prod.mk.injEq] at htog
                obtain ⟨hvv, hs2⟩ := htog
                have hrT : s.nextRef ≤ rT := by
                  have : rT ∈ res.1 := by
                    have := List.mem_of_find?_eq_some hf
                    rwa [show NB.messages = res.1 from rfl] at this
                  exact (hcopy.2.2.2.2 rT this).1
                rw [← hs2]
                dsimp only
                refine filterMap_ext_mem ?_
                intro p hp
                unfold hget
                rw [aget_aset_ne]
                intro hpe
                have := hrefs p hp
                omega
        · intro mid v s2 htog
          unfold toggleMessageStar at htog
          by_cases hvm : ¬ validateMessageIdFormat mid = true
          · rw [if_pos hvm] at htog
            exact absurd htog (by simp)
          · rw [if_neg hvm, hgc'] at htog
            dsimp only at htog
            rw [hbranchesP] at htog
            dsimp only at htog
            rcases hf : P'.messages.find?
                (fun r => (hget s'.heap r).map (·.id) = some mid)
                with _ | rT
            · rw [hf] at htog
              exact absurd htog (by simp)
            · rw [hf] at htog
              dsimp only at htog
              rcases hmT : hget s'.heap rT with _ | mT
              · rw [hmT] at htog
                exact absurd htog (by simp)
              · rw [hmT] at htog
                dsimp only at htog
                rw [Except.ok.injEq, Prod.mk.injEq] at htog
                obtain ⟨hvv, hs2⟩ := htog
                have hrT : rT < s.nextRef := by
                  have hmemP : rT ∈ P.messages := by
                    have := List.mem_of_find?_eq_some hf
                    rwa [show P'.messages = P.messages from rfl] at this
                  exact hrefs rT hmemP
                rw [← hs2]
                dsimp only
                refine filterMap_ext_mem ?_
                intro p hp
                unfold hget
                rw [aget_aset_ne]
                intro hpe
                have hpmem : p ∈ res.1 := by
                  rwa [hnbm] at hp
                have := (hcopy.2.2.2.2 p hpmem).1
                omega

/-- Concrete fork run used by the C2 witness. -/
def c2forkResult : Branch × MState :=
  (createBranchFromMessage scenarioBase "msg_2_aaaaaaaaa" "Tangent"
    "branch_1_aaaaaaaaa" 3).toOption.getD
    ({ id := "", title := "", parentBranchId := none, parentMessageId := none
       messages := [], branches := [], createdAt := 0, isActive := true },
      initialState)

/-- Concrete star toggle (through the fork) used by the C2 witness. -/
def c2toggleResult : Bool × MState :=
  (toggleMessageStar c2forkResult.2 "msg_1_aaaaaaaaa"
    (some "branch_1_aaaaaaaaa")).toOption.getD (false, initialState)

def c2conv : Conversation :=
  (getCurrentConversation scenarioBase).getD
    { id := "", title := "", createdAt := 0, branches := []
      currentBranch := "", breadcrumbs := [], condensedItems := none
      lastSummarizedMessageId := none, condensedLastUpdated := none
      condensedParseError := false, condensedErrorMessage := none }

def c2P : Branch :=
  (aget c2conv.branches "main").getD
    { id := "", title := "", parentBranchId := none, parentMessageId := none
      messages := [], branches := [], createdAt := 0, isActive := true }

/-- Witness for C2: in the two-message scenario, the fork's payloads
equal the parent's two-message prefix, and starring the parent's first
message through the fork leaves every parent payload unchanged. -/
theorem createBranchFromMessage_fork_spec_witness :
    c2forkResult.1.messages.filterMap (hget c2forkResult.2.heap) =
      (c2P.messages.take 2).filterMap (hget scenarioBase.heap) ∧
    c2P.messages.filterMap (hget c2toggleResult.2.heap) =
      c2P.messages.filterMap (hget c2forkResult.2.heap) := by
  have h := createBranchFromMessage_fork_spec scenarioBase c2conv
    "conv_1_aaaaaaaaa" "main" c2P "msg_2_aaaaaaaaa" "Tangent"
    "branch_1_aaaaaaaaa" 3
    (by decide) (by decide) (by decide) (by decide)
    (by decide) (by decide) (by decide) 1 (by decide)
    c2forkResult.1 c2forkResult.2 (by rfl)
  exact ⟨h.1, h.2.2.2.1 "msg_1_aaaaaaaaa" c2toggleResult.1 c2toggleResult.2
    (by rfl)⟩

/-! ## Claims C4 and C5: condensation support lemmas -/

/-- Comparator of the chronological sort. -/
def tsLE (a b : CondMsg) : Prop := a.msg.timestamp ≤ b.msg.timestamp

theorem insertByTimestamp_perm (m : CondMsg) (l : List CondMsg) :
    List.Perm (insertByTimestamp m l) (m :: l) := by
  induction l with
  | nil => rfl
  | cons y ys ih =>
    rw [insertByTimestamp]
    by_cases h : m.msg.timestamp ≤ y.msg.timestamp
    · rw [if_pos h]
    · rw [if_neg h]
      exact (List.Perm.cons y ih).trans (List.Perm.swap m y ys)

theorem sortByTimestamp_perm (l : List CondMsg) :
    List.Perm (sortByTimestamp l) l := by
  induction l with
  | nil => rfl
  | cons m ms ih =>
    rw [sortByTimestamp]
    exact (insertByTimestamp_perm m (sortByTimestamp ms)).trans
      (List.Perm.cons m ih)

theorem insertByTimestamp_sorted (m : CondMsg) (l : List CondMsg)
    (h : List.Pairwise tsLE l) :
    List.Pairwise tsLE (insertByTimestamp m l) := by
  induction l with
  | nil => exact List.pairwise_singleton tsLE m
  | cons y ys ih =>
    rw [insertByTimestamp]
    by_cases hle : m.msg.timestamp ≤ y.msg.timestamp
    · rw [if_pos hle]
      refine List.Pairwise.cons ?_ h
      intro z hz
      rcases List.mem_cons.mp hz with h1 | h1
      · rw [h1]
        exact hle
      · exact Nat.le_trans hle (List.rel_of_pairwise_cons h h1)
    · rw [if_neg hle]
      refine List.Pairwise.cons ?_ (ih (List.pairwise_cons.mp h).2)
      · intro z hz
        have hz' : z ∈ m :: ys :=
          (insertByTimestamp_perm m ys).mem_iff.mp hz
        rcases List.mem_cons.mp hz' with h1 | h1
        · rw [h1]
          exact Nat.le_of_not_le hle
        · exact List.rel_of_pairwise_cons h h1

theorem sortByTimestamp_sorted (l : List CondMsg) :
    List.Pairwise tsLE (sortByTimestamp l) := by
  induction l with
  | nil => exact List.Pairwise.nil
  | cons m ms ih => exact insertByTimestamp_sorted m (sortByTimestamp ms) ih

theorem sorted_le_getLast : ∀ {l : List CondMsg},
    List.Pairwise tsLE l → ∀ {y}, y ∈ l → ∀ {z}, l.getLast? = some z →
    y.msg.timestamp ≤ z.msg.timestamp := by
  intro l
  induction l with
  | nil =>
    intro _ y hy
    exact absurd hy (List.not_mem_nil y)
  | cons a rest ih =>
    intro h y hy z hz
    cases rest with
    | nil =>
      have hza : z = a := by
        have := hz
        simp at this
        exact this.symm
      rcases List.mem_cons.mp hy with h1 | h1
      · rw [h1, hza]
      · exact absurd h1 (List.not_mem_nil y)
    | cons b rest' =>
      have hz' : (b :: rest').getLast? = some z := by
        rw [List.getLast?_cons_cons] at hz
        exact hz
      have hzmem : z ∈ b :: rest' := List.mem_of_getLast?_eq_some hz'
      rcases List.mem_cons.mp hy with h1 | h1
      · rw [h1]
        exact List.rel_of_pairwise_cons h hzmem
      · exact ih (List.pairwise_cons.mp h).2 h1 hz'

/-- In a stable chronological sort, an element strictly later than all
others ends up last. -/
theorem sorted_getLast_of_strict_max {l : List CondMsg} {x : CondMsg}
    (hx : x ∈ l)
    (hmax : ∀ y ∈ l, y = x ∨ y.msg.timestamp < x.msg.timestamp) :
    (sortByTimestamp l).getLast? = some x := by
  have hperm := sortByTimestamp_perm l
  have hsort := sortByTimestamp_sorted l
  have hx' : x ∈ sortByTimestamp l := hperm.mem_iff.mpr hx
  rcases hz : (sortByTimestamp l).getLast? with _ | z
  · rw [List.getLast?_eq_none_iff] at hz
    rw [hz] at hx'
    exact absurd hx' (List.not_mem_nil x)
  · have hzl : z ∈ sortByTimestamp l := List.mem_of_getLast?_eq_some hz
    have hzmem : z ∈ l := hperm.mem_iff.mp hzl
    rcases hmax z hzmem with h1 | h1
    · rw [h1]
    · have hle : x.msg.timestamp ≤ z.msg.timestamp :=
        sorted_le_getLast hsort hx' hz
      omega

/-- Inversion of a successful `addMessage`. -/
theorem addMessage_ok_shape {s : MState} {content sender : String}
    {branchId : Option String} {msgId : String} {now : Nat}
    {m : Message} {s' : MState}
    (h : addMessage s content sender branchId msgId now = .ok (m, s')) :
    ∃ c tb b, getCurrentConversation s = some c ∧
      (match branchId with
        | some x => some x
        | none => s.currentBranch) = some tb ∧
      aget c.branches tb = some b ∧
      m = { id := msgId, content := sanitizeInput content, sender := sender
            timestamp := now, branchPoint := sender = "assistant"
            availableBranches := [], starred := false } ∧
      s' = writeCurrentConversation
        { s with heap := s.heap ++ [(s.nextRef, m)]
                 nextRef := s.nextRef + 1 }
        { c with branches := (aset c.branches tb
            ({ b with messages := b.messages ++ [s.nextRef] })) } := by
  unfold addMessage at h
  rcases hv : validateMessage content with e | t
  · rw [hv] at h
    exact absurd h (by simp)
  · rw [hv] at h
    dsimp only at h
    have ht : t = sanitizeInput content := validateMessage_ok content t hv
    by_cases hs : sender ≠ "user" ∧ sender ≠ "assistant"
    · rw [if_pos hs] at h
      exact absurd h (by simp)
    · rw [if_neg hs] at h
      rcases hcc : getCurrentConversation s with _ | c
      · rw [hcc] at h
        exact absurd h (by simp)
      · rw [hcc] at h
        dsimp only at h
        rcases htb : (match branchId with
            | some x => some x
            | none => s.currentBranch) with _ | tb
        · rw [htb] at h
          exact absurd h (by simp)
        · rw [htb] at h
          dsimp only at h
          rcases hb : aget c.branches tb with _ | b
          · rw [hb] at h
            exact absurd h (by simp)
          · rw [hb] at h
            dsimp only at h
            rw [Except.ok.injEq, Prod.mk.injEq] at h
            obtain ⟨hm, hs'⟩ := h
            refine ⟨c, tb, b, (by first | exact hcc | rfl),
              (by first | exact htb | rfl), (by first | exact hb | rfl),
              ?_, ?_⟩
            · rw [← hm, ht]
            · rw [← hs', ← hm]

/-- `getMessagesForCondensing` only looks at the focused conversation's
branch map and the heap, so writing back a conversation with the same
branches leaves it unchanged. -/
theorem getMessagesForCondensing_write {s : MState} {c c' : Conversation}
    (hc : getCurrentConversation s = some c)
    (hb : c'.branches = c.branches) :
    getMessagesForCondensing (writeCurrentConversation s c') =
      getMessagesForCondensing s := by
  have hsome : (getCurrentConversation s).isSome := by rw [hc]; rfl
  unfold getMessagesForCondensing
  rw [getCurrentConversation_write c' hsome, hc]
  dsimp only
  rw [hb, writeCurrentConversation_heap]

/-! ## Claim C4 -/

/-- The chronologically last message's id first occurs at the final
position of the merged sequence.  This fails when a fork has copied the
last message (copies share id and timestamp), which is one of the two
ways the claimed cache idempotence breaks. -/
def lastOccursLast (messages : List CondMsg) : Bool :=
  match messages.getLast? with
  | none => true
  | some lastM =>
      messages.findIdx? (fun m => m.msg.id = lastM.msg.id) =
        some (messages.length - 1)

/-- C4 counterexample: the claim says a second `getCondensedLog` with no
intervening append is always a pure cache hit.  Two concrete runs
refute it: (1) a generation that succeeds with an empty outline stores
`condensedItems = []`, which the regeneration test treats as "no cache",
so the second call invokes the capability again; (2) after forking from
the chronologically last message, the fork's copy shares the message id
and timestamp, the stored cursor id is found at an earlier position,
and every call regenerates — here the first call succeeded with one
item, yet the second call still invokes the capability. -/
theorem getCondensedLog_claim_counterexample :
    ((getCondensedLog
        (getCondensedLog scenarioBase false
          (fun _ => some { success := true, condensed := some []
                           parseError := some false, errorMessage := none })
          10).2.1
        false
        (fun _ => some { success := true, condensed := some []
                         parseError := some false, errorMessage := none })
        11).2.2 = true) ∧
    ((getCondensedLog scenarioForked false
        (fun _ => some { success := true
                         condensed := some [{ id := "summary_1"
                                              title := "Greeted the user"
                                              sourceMessageId :=
                                                "msg_1_aaaaaaaaa"
                                              timestamp := some 1
                                              childTitles := [] }]
                         parseError := some false, errorMessage := none })
        10).1.map (fun r => r.items.length) = some 1) ∧
    ((getCondensedLog
        (getCondensedLog scenarioForked false
          (fun _ => some { success := true
                           condensed := some [{ id := "summary_1"
                                                title := "Greeted the user"
                                                sourceMessageId :=
                                                  "msg_1_aaaaaaaaa"
                                                timestamp := some 1
                                                childTitles := [] }]
                           parseError := some false, errorMessage := none })
          10).2.1
        false
        (fun _ => some { success := true
                         condensed := some [{ id := "summary_1"
                                              title := "Greeted the user"
                                              sourceMessageId :=
                                                "msg_1_aaaaaaaaa"
                                              timestamp := some 1
                                              childTitles := [] }]
                         parseError := some false, errorMessage := none })
        11).2.2 = true) := by
  refine ⟨by decide, by decide, by decide⟩

/-- C4 as amended: if the first `getCondensedLog` call (with
`forceRefresh = false`, nonempty message set) returned a non-empty
items list, and the merged sequence's last message id first occurs at
the last position (no fork has duplicated the last message), then a
second call with no intervening append returns exactly the same result,
leaves the state unchanged and does not invoke the summarization
capability. -/
theorem getCondensedLog_cache_idempotent
    (s : MState) (c : Conversation) (oracle1 oracle2 : CondenseOracle)
    (t1 t2 : Nat) (res1 : CondenseResult) (s1 : MState) (b1 : Bool)
    (hc : getCurrentConversation s = some c)
    (h1 : getCondensedLog s false oracle1 t1 = (some res1, s1, b1))
    (hne : res1.items ≠ [])
    (hlast : lastOccursLast (getMessagesForCondensing s) = true)
    (hid : ((getMessagesForCondensing s).getLast?).map
      (fun m => m.msg.id) ≠ some "") :
    getCondensedLog s1 false oracle2 t2 = (some res1, s1, false) := by
  unfold getCondensedLog at h1
  rw [hc] at h1
  dsimp only at h1
  by_cases hempty : getMessagesForCondensing s = []
  · rw [if_pos hempty] at h1
    simp at h1
  · rw [if_neg hempty] at h1
    rcases hgl : (getMessagesForCondensing s).getLast? with _ | lastM
    · rw [List.getLast?_eq_none_iff] at hgl
      exact absurd hgl hempty
    · have hlid : lastM.msg.id ≠ "" := by
        intro he
        exact hid (by rw [hgl]; simpa using he)
      by_cases hneeds : ¬ (false ||
          c.condensedItems.getD [] = [] ||
          hasNewMessagesSinceLastSummary (getMessagesForCondensing s)
            c.lastSummarizedMessageId) = true
      · rw [if_pos hneeds] at h1
        rw [Prod.mk.injEq, Prod.mk.injEq] at h1
        obtain ⟨hres, hs1, hb1⟩ := h1
        have hres' := Option.some.inj hres
        unfold getCondensedLog
        rw [← hs1, hc]
        dsimp only
        rw [if_neg hempty, if_pos hneeds, hres']
      · rw [if_neg hneeds] at h1
        rw [Prod.mk.injEq, Prod.mk.injEq] at h1
        obtain ⟨hres, hs1, hb1⟩ := h1
        have hres' : generateCondensedLogFromAPI oracle1
            (getMessagesForCondensing s) = res1 := Option.some.inj hres
        set c' : Conversation :=
          { c with
              condensedItems := some (generateCondensedLogFromAPI oracle1
                (getMessagesForCondensing s)).items
              condensedParseError := (generateCondensedLogFromAPI oracle1
                (getMessagesForCondensing s)).parseError
              condensedErrorMessage := (generateCondensedLogFromAPI oracle1
                (getMessagesForCondensing s)).errorMessage
              lastSummarizedMessageId :=
                ((getMessagesForCondensing s).getLast?).map (·.msg.id)
              condensedLastUpdated := some t1 }
          with hc'
        have hsome : (getCurrentConversation s).isSome := by rw [hc]; rfl
        have hgc1 : getCurrentConversation s1 = some c' := by
          rw [← hs1]
          exact getCurrentConversation_write c' hsome
        have hmsgs1 : getMessagesForCondensing s1 =
            getMessagesForCondensing s := by
          rw [← hs1]
          exact getMessagesForCondensing_write hc rfl
        have hlsm : c'.lastSummarizedMessageId = some lastM.msg.id := by
          rw [hc']
          dsimp only
          rw [hgl]
          rfl
        have hcond : ¬ (lastM.msg.id = "" ∨
            getMessagesForCondensing s = []) := by
          intro hcon
          rcases hcon with h' | h'
          · exact hlid h'
          · exact hempty h'
        have hnew : hasNewMessagesSinceLastSummary
            (getMessagesForCondensing s) c'.lastSummarizedMessageId
            = false := by
          rw [hlsm]
          unfold hasNewMessagesSinceLastSummary
          dsimp only
          rw [if_neg hcond]
          unfold lastOccursLast at hlast
          rw [hgl] at hlast
          have hlast' := of_decide_eq_true hlast
          rw [hlast']
          simp
        have hitems : c'.condensedItems.getD [] = res1.items := by
          rw [hc']
          dsimp only
          rw [hres']
          rfl
        unfold getCondensedLog
        rw [hgc1]
        dsimp only
        rw [hmsgs1]
        rw [if_neg hempty]
        rw [if_pos (by
          rw [hnew, hitems]
          simp [hne])]
        rw [← hs1, hitems]
        try rw [hres']
        try rfl

def c4oracle : CondenseOracle := fun _ =>
  some { success := true
         condensed := some [{ id := "summary_1", title := "Greeted the user"
                              sourceMessageId := "msg_1_aaaaaaaaa"
                              timestamp := some 1, childTitles := [] }]
         parseError := some false, errorMessage := none }

def c4first : Option CondenseResult × MState × Bool :=
  getCondensedLog scenarioBase false c4oracle 10

def c4res : CondenseResult :=
  c4first.1.getD { items := [], parseError := false, errorMessage := none }

def c4conv : Conversation :=
  (getCurrentConversation scenarioBase).getD
    { id := "", title := "", createdAt := 0, branches := []
      currentBranch := "", breadcrumbs := [], condensedItems := none
      lastSummarizedMessageId := none, condensedLastUpdated := none
      condensedParseError := false, condensedErrorMessage := none }

/-- Witness for C4: after a successful one-item generation on the
two-message scenario, a second call is a pure cache hit. -/
theorem getCondensedLog_cache_idempotent_witness :
    getCondensedLog c4first.2.1 false c4oracle 11 =
      (some c4res, c4first.2.1, false) :=
  getCondensedLog_cache_idempotent scenarioBase c4conv c4oracle c4oracle
    10 11 c4res c4first.2.1 c4first.2.2
    (by decide) (by rfl) (by decide) (by decide) (by decide)

/-! ## Claim C5 -/

def c5oracle : CondenseOracle := fun _ =>
  some { success := true
         condensed := some [{ id := "summary_1", title := "Asked a question"
                              sourceMessageId := "msg_1_aaaaaaaaa"
                              timestamp := some 1, childTitles := [] }]
         parseError := some false, errorMessage := none }

/-- Conversation with main = [msg_1 (t=1)], fork B = [copy of msg_1,
msg_2 (t=2)], focused on B. -/
def c5base : MState :=
  runOps
    [ .createConversation "C" "conv_1_aaaaaaaaa" 0,
      .addMessage "Hi" "user" none "msg_1_aaaaaaaaa" 1,
      .createBranchFromMessage "msg_1_aaaaaaaaa" "B" "branch_1_aaaaaaaaa" 1,
      .addMessage "Hey" "user" none "msg_2_aaaaaaaaa" 2 ]
    initialState

/-- `c5base` with a summary cached (cursor on msg_2, the unique
chronologically last message). -/
def c5cached : MState := (getCondensedLog c5base false c5oracle 5).2.1

/-- `c5cached` after appending msg_3 to main with timestamp 2 — equal
to msg_2's timestamp. -/
def c5after : MState :=
  applyOp c5cached
    (.addMessage "New" "user" (some "main") "msg_3_aaaaaaaaa" 2)

/-- C5 counterexample: the claim says appending any message to any
branch makes the next `getCondensedLog` regenerate.  If the appended
message's timestamp ties with the previously last message's and the
appending branch precedes the other in map order, the stable
chronological sort keeps the new message before the old one: the stored
cursor id is still last, the index test sees nothing new, and the call
is a cache hit — the capability is not invoked. -/
theorem getCondensedLog_invalidation_counterexample :
    exceptErr (addMessage c5cached "New" "user" (some "main")
      "msg_3_aaaaaaaaa" 2) = false ∧
    (getCondensedLog c5after false c5oracle 6).2.2 = false := by
  refine ⟨by decide, by decide⟩

/-- C5 as amended: appending a message whose timestamp is strictly
greater than every existing message's, and whose fresh id differs from
the stored cursor id, makes the next `getCondensedLog` (with
`forceRefresh = false`) regenerate: the appended message is now the
strict last element of the merged chronological sequence, so the stored
cursor id is no longer first found at the last position and the
summarization capability is invoked. -/
theorem getCondensedLog_invalidation
    (s : MState) (c : Conversation) (content sender : String)
    (branchId : Option String) (msgId : String) (now : Nat)
    (m : Message) (s' : MState) (oracle : CondenseOracle) (t : Nat)
    (hc : getCurrentConversation s = some c)
    (hadd : addMessage s content sender branchId msgId now = .ok (m, s'))
    (hts : ∀ cm ∈ getMessagesForCondensing s, cm.msg.timestamp < now)
    (hfresh : c.lastSummarizedMessageId ≠ some msgId)
    (hrefs : ∀ p ∈ c.branches, ∀ r ∈ p.2.messages, r < s.nextRef)
    (hheap : ∀ e ∈ s.heap, e.1 < s.nextRef) :
    (getCondensedLog s' false oracle t).2.2 = true := by
  obtain ⟨c0, tb, b, hc0, htb, hb, hm, hs'⟩ := addMessage_ok_shape hadd
  obtain rfl : c = c0 := (Option.some.inj (hc0.symm.trans hc)).symm
  have hsome : (getCurrentConversation s).isSome := by rw [hc]; rfl
  have hsomeMid : (getCurrentConversation
      { s with heap := s.heap ++ [(s.nextRef, m)]
               nextRef := s.nextRef + 1 }).isSome := hsome
  have hgc' : getCurrentConversation s' = some
      { c with branches := (aset c.branches tb
          ({ b with messages := b.messages ++ [s.nextRef] })) } := by
    rw [hs']
    exact getCurrentConversation_write _ hsomeMid
  have hheapEq : s'.heap = s.heap ++ [(s.nextRef, m)] := by
    rw [hs', writeCurrentConversation_heap]
  have hnewLookup : hget s'.heap s.nextRef = some m := by
    rw [hheapEq]
    unfold hget
    rw [aget_append, aget_none_of_keys_lt hheap]
    simp [aget, Option.orElse]
  have holdLookup : ∀ r, r < s.nextRef → hget s'.heap r = hget s.heap r := by
    intro r hr
    rw [hheapEq]
    unfold hget
    rw [aget_append]
    rcases har : aget s.heap r with _ | mr
    · simp only [Option.orElse]
      rw [aget, if_neg (by omega)]
      rfl
    · rfl
  have holdmsgs : getMessagesForCondensing s =
      sortByTimestamp (c.branches.flatMap
        (fun p => p.2.messages.filterMap
          (fun r => (hget s.heap r).map
            (fun mm => { msg := mm, branchId := p.1
                         branchTitle := p.2.title })))) := by
    unfold getMessagesForCondensing
    rw [hc]
  have hnewmsgs : getMessagesForCondensing s' =
      sortByTimestamp ((aset c.branches tb
          ({ b with messages := b.messages ++ [s.nextRef] })).flatMap
        (fun p => p.2.messages.filterMap
          (fun r => (hget s'.heap r).map
            (fun mm => { msg := mm, branchId := p.1
                         branchTitle := p.2.title })))) := by
    unfold getMessagesForCondensing
    rw [hgc']
  have hannm_mem : ({ msg := m, branchId := tb, branchTitle := b.title } :
      CondMsg) ∈ (aset c.branches tb
        ({ b with messages := b.messages ++ [s.nextRef] })).flatMap
      (fun p => p.2.messages.filterMap
        (fun r => (hget s'.heap r).map
          (fun mm => { msg := mm, branchId := p.1
                       branchTitle := p.2.title }))) := by
    refine List.mem_flatMap.mpr ⟨(tb,
      { b with messages := b.messages ++ [s.nextRef] }), ?_, ?_⟩
    · exact aget_mem (aget_aset_self c.branches tb _)
    · refine List.mem_filterMap.mpr ⟨s.nextRef, ?_, ?_⟩
      · exact List.mem_append_right _ (List.mem_singleton.mpr rfl)
      · rw [hnewLookup]
        rfl
  have hflat_char : ∀ y ∈ (aset c.branches tb
        ({ b with messages := b.messages ++ [s.nextRef] })).flatMap
      (fun p => p.2.messages.filterMap
        (fun r => (hget s'.heap r).map
          (fun mm => { msg := mm, branchId := p.1
                       branchTitle := p.2.title }))),
      y = ({ msg := m, branchId := tb, branchTitle := b.title } : CondMsg) ∨
        y.msg.timestamp < now := by
    intro y hy
    obtain ⟨p, hp, hyf⟩ := List.mem_flatMap.mp hy
    obtain ⟨r, hr, hmap⟩ := List.mem_filterMap.mp hyf
    rcases mem_aset hp with hpeq | hpold
    · subst hpeq
      rcases List.mem_append.mp hr with hrb | hrlast
      · have hrlt : r < s.nextRef := hrefs (tb, b) (aget_mem hb) r hrb
        right
        apply hts
        rw [holdmsgs]
        apply (sortByTimestamp_perm _).mem_iff.mpr
        refine List.mem_flatMap.mpr ⟨(tb, b), aget_mem hb, ?_⟩
        refine List.mem_filterMap.mpr ⟨r, hrb, ?_⟩
        rw [← holdLookup r hrlt]
        exact hmap
      · left
        have hreq : r = s.nextRef := by simpa using hrlast
        rw [hreq, hnewLookup] at hmap
        exact (Option.some.inj hmap).symm
    · have hrlt : r < s.nextRef := hrefs p hpold r hr
      right
      apply hts
      rw [holdmsgs]
      apply (sortByTimestamp_perm _).mem_iff.mpr
      refine List.mem_flatMap.mpr ⟨p, hpold, ?_⟩
      refine List.mem_filterMap.mpr ⟨r, hr, ?_⟩
      rw [← holdLookup r hrlt]
      exact hmap
  have htsm : m.timestamp = now := by rw [hm]
  have hmid : m.id = msgId := by rw [hm]
  have hlastnew : (getMessagesForCondensing s').getLast? =
      some ({ msg := m, branchId := tb, branchTitle := b.title } :
        CondMsg) := by
    rw [hnewmsgs]
    refine sorted_getLast_of_strict_max hannm_mem ?_
    intro y hy
    rcases hflat_char y hy with h1 | h1
    · exact Or.inl h1
    · right
      show y.msg.timestamp <
        ({ msg := m, branchId := tb, branchTitle := b.title } :
          CondMsg).msg.timestamp
      rw [show ({ msg := m, branchId := tb, branchTitle := b.title } :
        CondMsg).msg.timestamp = m.timestamp from rfl, htsm]
      exact h1
  have hmsgs_ne : getMessagesForCondensing s' ≠ [] := by
    intro he
    rw [he] at hlastnew
    simp at hlastnew
  have hnewtrue : hasNewMessagesSinceLastSummary
      (getMessagesForCondensing s') c.lastSummarizedMessageId = true := by
    rcases hlsm : c.lastSummarizedMessageId with _ | lid
    · rfl
    · unfold hasNewMessagesSinceLastSummary
      dsimp only
      by_cases hcond : lid = "" ∨ getMessagesForCondensing s' = []
      · rw [if_pos hcond]
      · rw [if_neg hcond]
        rcases hfi : (getMessagesForCondensing s').findIdx?
            (fun mm => mm.msg.id = lid) with _ | i
        · rw [hfi]
        · rw [hfi]
          obtain ⟨hi, hpi, _⟩ := List.findIdx?_eq_some_iff_getElem.mp hfi
          have hlid_ne : lid ≠ msgId := by
            intro he
            rw [hlsm, he] at hfresh
            exact hfresh rfl
          have hne_i : i ≠ (getMessagesForCondensing s').length - 1 := by
            intro hieq
            have hgetlast := hlastnew
            rw [List.getLast?_eq_getElem?] at hgetlast
            rw [← hieq] at hgetlast
            rw [List.getElem?_eq_getElem hi] at hgetlast
            have helem := Option.some.inj hgetlast
            have hpid := of_decide_eq_true hpi
            rw [helem] at hpid
            exact hlid_ne ((hmid ▸ hpid).symm)
          have hlt : i < (getMessagesForCondensing s').length - 1 := by omega
          simpa using hlt
  unfold getCondensedLog
  rw [hgc']
  dsimp only
  rw [if_neg hmsgs_ne]
  rw [if_neg (by
    rw [show ({ c with branches := (aset c.branches tb
        ({ b with messages := b.messages ++ [s.nextRef] })) } :
      Conversation).lastSummarizedMessageId = c.lastSummarizedMessageId
      from rfl]
    rw [hnewtrue]
    simp)]
  try rfl

def c5conv : Conversation :=
  (getCurrentConversation c5cached).getD
    { id := "", title := "", createdAt := 0, branches := []
      currentBranch := "", breadcrumbs := [], condensedItems := none
      lastSummarizedMessageId := none, condensedLastUpdated := none
      condensedParseError := false, condensedErrorMessage := none }

/-- Append to main with a strictly greater timestamp (3). -/
def c5appendGood : Message × MState :=
  (addMessage c5cached "New" "user" (some "main") "msg_3_aaaaaaaaa"
    3).toOption.getD
    ({ id := "", content := "", sender := "", timestamp := 0
       branchPoint := false, availableBranches := [], starred := false },
      initialState)

/-- Witness for C5: appending a strictly later message makes the next
call invoke the capability. -/
theorem getCondensedLog_invalidation_witness :
    (getCondensedLog c5appendGood.2 false c5oracle 6).2.2 = true :=
  getCondensedLog_invalidation c5cached c5conv "New" "user" (some "main")
    "msg_3_aaaaaaaaa" 3 c5appendGood.1 c5appendGood.2 c5oracle 6
    (by decide) (by rfl) (by decide) (by decide) (by decide) (by decide)

/-! ## Claim C6 -/

theorem hget_append_some {h Δ : List (Nat × Message)} {r : Nat}
    {m : Message} (hm : hget h r = some m) : hget (h ++ Δ) r = some m := by
  unfold hget at *
  rw [aget_append, hm]
  rfl

/-- The stored message `sm` was materialised at heap cell `r`. -/
def MsgLoaded (h : List (Nat × Message)) (sm : StoredMessage) (r : Nat) :
    Prop :=
  hget h r = some (storedToMessage sm)

def BranchLoaded (h : List (Nat × Message))
    (pb : String × StoredBranch) (qb : String × Branch) : Prop :=
  qb.1 = pb.1 ∧ qb.2.title = pb.2.title ∧
  List.Forall₂ (MsgLoaded h) pb.2.messages qb.2.messages

/-- The loaded conversation corresponds to the stored one, with the
backward-compatibility defaulting applied: `condensedItems` is always
defined afterwards (`some []` when it was absent, in which case the
other condensation fields are reset), and every stored message is
materialised with `starred` defaulted to `false`
(via `storedToMessage`). -/
def ConvLoaded (h : List (Nat × Message))
    (pc : String × StoredConversation) (qc : String × Conversation) :
    Prop :=
  qc.1 = pc.1 ∧
  qc.2.condensedItems = some (pc.2.condensedItems.getD []) ∧
  (pc.2.condensedItems = none → qc.2.lastSummarizedMessageId = none ∧
    qc.2.condensedLastUpdated = none) ∧
  List.Forall₂ (BranchLoaded h) pc.2.branches qc.2.branches

theorem MsgLoaded_ext {h Δ : List (Nat × Message)} {sms : List StoredMessage}
    {rs : List Nat} (hf : List.Forall₂ (MsgLoaded h) sms rs) :
    List.Forall₂ (MsgLoaded (h ++ Δ)) sms rs :=
  hf.imp (fun a b hm => hget_append_some hm)

theorem BranchLoaded_ext {h Δ : List (Nat × Message)}
    {pbs : List (String × StoredBranch)} {qbs : List (String × Branch)}
    (hf : List.Forall₂ (BranchLoaded h) pbs qbs) :
    List.Forall₂ (BranchLoaded (h ++ Δ)) pbs qbs :=
  hf.imp (fun a b hb => ⟨hb.1, hb.2.1, MsgLoaded_ext hb.2.2⟩)

theorem loadMessages_spec : ∀ (sms : List StoredMessage)
    (h : List (Nat × Message)) (n : Nat),
    (∀ e ∈ h, e.1 < n) →
    List.Forall₂ (MsgLoaded (loadMessages sms h n).2.1) sms
      (loadMessages sms h n).1 ∧
    (∃ d, (loadMessages sms h n).2.1 = h ++ d) ∧
    (∀ e ∈ (loadMessages sms h n).2.1, e.1 < (loadMessages sms h n).2.2) ∧
    n ≤ (loadMessages sms h n).2.2 := by
  intro sms
  induction sms with
  | nil =>
    intro h n hk
    exact ⟨List.Forall₂.nil, ⟨[], by simp [loadMessages]⟩, hk,
      Nat.le_refl n⟩
  | cons sm rest ih =>
    intro h n hk
    rw [loadMessages]
    dsimp only
    have hk1 : ∀ e ∈ h ++ [(n, storedToMessage sm)], e.1 < n + 1 := by
      intro e he
      rcases List.mem_append.mp he with h1 | h1
      · have := hk e h1
        omega
      · have : e = (n, storedToMessage sm) := by simpa using h1
        rw [this]
        omega
    obtain ⟨ihf, ⟨d, hd⟩, ihb, ihn⟩ :=
      ih (h ++ [(n, storedToMessage sm)]) (n + 1) hk1
    refine ⟨?_, ⟨[(n, storedToMessage sm)] ++ d, by
      rw [hd, List.append_assoc]⟩, ihb, by omega⟩
    refine List.Forall₂.cons ?_ ihf
    unfold MsgLoaded
    rw [hd]
    apply hget_append_some
    unfold hget
    rw [aget_append, aget_none_of_keys_lt hk]
    simp [aget, Option.orElse]

theorem loadBranches_spec : ∀ (sbs : List (String × StoredBranch))
    (h : List (Nat × Message)) (n : Nat),
    (∀ e ∈ h, e.1 < n) →
    List.Forall₂ (BranchLoaded (loadBranches sbs h n).2.1) sbs
      (loadBranches sbs h n).1 ∧
    (∃ d, (loadBranches sbs h n).2.1 = h ++ d) ∧
    (∀ e ∈ (loadBranches sbs h n).2.1, e.1 < (loadBranches sbs h n).2.2) ∧
    n ≤ (loadBranches sbs h n).2.2 := by
  intro sbs
  induction sbs with
  | nil =>
    intro h n hk
    exact ⟨List.Forall₂.nil, ⟨[], by simp [loadBranches]⟩, hk,
      Nat.le_refl n⟩
  | cons psb rest ih =>
    intro h n hk
    obtain ⟨key, sb⟩ := psb
    rw [loadBranches]
    dsimp only
    obtain ⟨hmf, ⟨d1, hd1⟩, hmb, hmn⟩ := loadMessages_spec sb.messages h n hk
    have hkmid : ∀ e ∈ (loadMessages sb.messages h n).2.1,
        e.1 < (loadMessages sb.messages h n).2.2 := hmb
    obtain ⟨ihf, ⟨d2, hd2⟩, ihb, ihn⟩ :=
      ih (loadMessages sb.messages h n).2.1
        (loadMessages sb.messages h n).2.2 hkmid
    unfold loadBranch
    dsimp only
    refine ⟨?_, ⟨d1 ++ d2, by rw [hd2, hd1, List.append_assoc]⟩, ihb, by
      omega⟩
    refine List.Forall₂.cons ⟨rfl, rfl, ?_⟩ ihf
    rw [hd2]
    exact MsgLoaded_ext hmf

theorem loadConversations_spec : ∀ (scs : List (String × StoredConversation))
    (h : List (Nat × Message)) (n : Nat),
    (∀ e ∈ h, e.1 < n) →
    List.Forall₂ (ConvLoaded (loadConversations scs h n).2.1) scs
      (loadConversations scs h n).1 ∧
    (∃ d, (loadConversations scs h n).2.1 = h ++ d) ∧
    (∀ e ∈ (loadConversations scs h n).2.1,
      e.1 < (loadConversations scs h n).2.2) ∧
    n ≤ (loadConversations scs h n).2.2 := by
  intro scs
  induction scs with
  | nil =>
    intro h n hk
    exact ⟨List.Forall₂.nil, ⟨[], by simp [loadConversations]⟩, hk,
      Nat.le_refl n⟩
  | cons psc rest ih =>
    intro h n hk
    obtain ⟨key, sc⟩ := psc
    rw [loadConversations]
    dsimp only
    obtain ⟨hbf, ⟨d1, hd1⟩, hbb, hbn⟩ := loadBranches_spec sc.branches h n hk
    obtain ⟨ihf, ⟨d2, hd2⟩, ihb, ihn⟩ :=
      ih (loadBranches sc.branches h n).2.1
        (loadBranches sc.branches h n).2.2 hbb
    unfold loadConversation
    dsimp only
    refine ⟨?_, ⟨d1 ++ d2, by rw [hd2, hd1, List.append_assoc]⟩, ihb, by
      omega⟩
    refine List.Forall₂.cons ⟨rfl, ?_, ?_, ?_⟩ ihf
    · cases sc.condensedItems <;> rfl
    · intro hnone
      rw [hnone]
      exact ⟨rfl, rfl⟩
    · rw [hd2]
      exact BranchLoaded_ext hbf

def c6storedMain : StoredBranch :=
  { id := "main", title := "Main Channel", parentBranchId := none
    parentMessageId := none
    messages := [{ id := "msg_1_aaaaaaaaa", content := "Hi", sender := "user"
                   timestamp := 1, branchPoint := false
                   availableBranches := [], starred := none }]
    branches := [], createdAt := 0, isActive := true }

def c6storedConv : StoredConversation :=
  { id := "convA", title := "A", createdAt := 0
    branches := [("main", c6storedMain)], currentBranch := "main"
    breadcrumbs := ["Main Channel"], condensedItems := none
    lastSummarizedMessageId := none, condensedLastUpdated := none
    condensedParseError := false, condensedErrorMessage := none }

/-- A payload whose `currentConversationId` does not occur among its
conversations. -/
def c6payload : StoredData :=
  { conversations := some [("convA", c6storedConv)]
    currentConversationId := some "convMissing"
    currentBranch := some "main" }

/-- C6 counterexample: the claim says every rejected load leaves the
in-memory registry exactly as it was.  For a payload whose referenced
current conversation is missing, `loadFromStorage` returns `false`
(rejecting the payload) but the registry state has already been
replaced by the loaded conversations, because the code assigns
`this.conversations` and the cursors before the final validation
throws. -/
theorem loadFromStorage_claim_counterexample :
    (loadFromStorage scenarioBase (some c6payload)).1 = false ∧
    (loadFromStorage scenarioBase (some c6payload)).2 ≠ scenarioBase ∧
    (loadFromStorage scenarioBase
      (some c6payload)).2.currentConversationId = some "convMissing" := by
  refine ⟨by decide, by decide, by decide⟩

/-- C6 as amended: `loadFromStorage` returns `false` and leaves the
state untouched when the payload is absent, lacks `conversations`, or
has a falsy `currentConversationId`; but when the referenced current
conversation is missing among the loaded ones it returns `false` with
the state already overwritten by the loaded payload (conversations and
cursors replaced, defaulting applied).  On every successful load (and
in the overwritten-rejection case) the loaded conversations satisfy the
backward-compatible defaulting: every stored message is materialised
with `starred` defaulted to `false`, and a conversation missing
`condensedItems` gets the three condensation fields reset to
`some []` / `none` / `none`. -/
theorem loadFromStorage_spec (s : MState) (p : StoredData)
    (hheap : ∀ e ∈ s.heap, e.1 < s.nextRef) :
    (loadFromStorage s none = (false, s)) ∧
    (p.conversations = none → loadFromStorage s (some p) = (false, s)) ∧
    (falsyStr p.currentConversationId = true →
      loadFromStorage s (some p) = (false, s)) ∧
    (∀ sconvs, p.conversations = some sconvs →
      falsyStr p.currentConversationId = false →
      (loadFromStorage s (some p)).2.conversations =
        (loadConversations sconvs s.heap s.nextRef).1 ∧
      (loadFromStorage s (some p)).2.currentConversationId =
        p.currentConversationId ∧
      (loadFromStorage s (some p)).2.heap =
        (loadConversations sconvs s.heap s.nextRef).2.1 ∧
      ((loadFromStorage s (some p)).1 = true ↔
        (getCurrentConversation (loadFromStorage s (some p)).2).isSome) ∧
      List.Forall₂ (ConvLoaded (loadFromStorage s (some p)).2.heap) sconvs
        (loadConversations sconvs s.heap s.nextRef).1) := by
  refine ⟨rfl, ?_, ?_, ?_⟩
  · intro hnone
    unfold loadFromStorage
    dsimp only
    rw [hnone]
  · intro hfalsy
    unfold loadFromStorage
    dsimp only
    rcases hconvs : p.conversations with _ | sconvs
    · try rw [hconvs]
      try rfl
    · try rw [hconvs]
      try dsimp only
      rw [if_pos hfalsy]
  · intro sconvs hconvs hfalsy
    have heq : loadFromStorage s (some p) =
        (if (getCurrentConversation
            { conversations := (loadConversations sconvs s.heap s.nextRef).1
              currentConversationId := p.currentConversationId
              currentBranch :=
                some (if falsyStr p.currentBranch then "main"
                      else p.currentBranch.getD "main")
              heap := (loadConversations sconvs s.heap s.nextRef).2.1
              nextRef :=
                (loadConversations sconvs s.heap s.nextRef).2.2 }).isSome
          then true else false,
          { conversations := (loadConversations sconvs s.heap s.nextRef).1
            currentConversationId := p.currentConversationId
            currentBranch :=
              some (if falsyStr p.currentBranch then "main"
                    else p.currentBranch.getD "main")
            heap := (loadConversations sconvs s.heap s.nextRef).2.1
            nextRef := (loadConversations sconvs s.heap s.nextRef).2.2 }) := by
      unfold loadFromStorage
      try dsimp only
      rw [hconvs]
      try dsimp only
      rw [if_neg (by rw [hfalsy]; simp)]
      try dsimp only
      rcases hcc : getCurrentConversation
          { conversations := (loadConversations sconvs s.heap s.nextRef).1
            currentConversationId := p.currentConversationId
            currentBranch :=
              some (if falsyStr p.currentBranch then "main"
                    else p.currentBranch.getD "main")
            heap := (loadConversations sconvs s.heap s.nextRef).2.1
            nextRef := (loadConversations sconvs s.heap s.nextRef).2.2 }
          with _ | cfound
      · try rw [hcc]
        try rfl
      · try rw [hcc]
        try rfl
    rw [heq]
    dsimp only
    refine ⟨rfl, rfl, rfl, ?_, ?_⟩
    · rcases hcc : (getCurrentConversation
          { conversations := (loadConversations sconvs s.heap s.nextRef).1
            currentConversationId := p.currentConversationId
            currentBranch :=
              some (if falsyStr p.currentBranch then "main"
                    else p.currentBranch.getD "main")
            heap := (loadConversations sconvs s.heap s.nextRef).2.1
            nextRef :=
              (loadConversations sconvs s.heap s.nextRef).2.2 }).isSome
          with _ | _
      · simp [hcc]
      · simp [hcc]
    · exact (loadConversations_spec sconvs s.heap s.nextRef hheap).1

def c6goodPayload : StoredData :=
  { conversations := some [("convA", c6storedConv)]
    currentConversationId := some "convA"
    currentBranch := some "main" }

/-- Witness for C6: an absent payload leaves the state untouched, and
a well-formed payload loads successfully with the defaulting
correspondence holding for its conversation. -/
theorem loadFromStorage_spec_witness :
    loadFromStorage scenarioBase none = (false, scenarioBase) ∧
    (loadFromStorage scenarioBase (some c6goodPayload)).1 = true ∧
    List.Forall₂
      (ConvLoaded (loadFromStorage scenarioBase (some c6goodPayload)).2.heap)
      [("convA", c6storedConv)]
      (loadConversations [("convA", c6storedConv)] scenarioBase.heap
        scenarioBase.nextRef).1 := by
  have h := loadFromStorage_spec scenarioBase c6goodPayload (by decide)
  have h4 := h.2.2.2 [("convA", c6storedConv)] rfl (by decide)
  exact ⟨h.1, h4.2.2.2.1.mpr (by decide), h4.2.2.2.2⟩
